import Mathlib

/-!
# Verification of the debugger-mcp DAP diagnostic scripts

A shallow embedding, in Lean 4, of the Python diagnostic scripts of the
debugger-mcp repository: the DAP (Debug Adapter Protocol) wire framing
(`Content-Length` header + JSON body), the reader loops, the handshake
sequencing of `scripts/test_dap_standalone.py` and `test_correct_sequence.py`,
and the `fizzbuzz.py` fixture.  The Dispatcher component described by the
design document (pending-request map, `await_response`, `ProtocolViolation`
reporting) has no implementation among the Python scripts — the production
core is the Rust crate this repository's scripts were written to diagnose —
so it is modelled from the specification where claims require it.

Conventions: byte streams are modelled as `List Char` where every character
stands for one byte.  All frames produced by the scripts are ASCII (Python's
`json.dumps` has `ensure_ascii=True`), so on the valid domain one character
is exactly one byte; the UTF-8 byte length of a string is computed by an
explicit `utf8Len` function where the code takes `len()` of encoded bytes.
-/

namespace DebuggerMcp

/-! ## fizzbuzz.py

`fizzbuzz(n)` from `src/fizzbuzz.py` lines 8-25.  Python's `%` on `int`
agrees with Lean's `Int.emod` for a positive modulus, and Python's `str(n)`
agrees with `toString (n : Int)`. -/

/-- Function `fizzbuzz` from `src/fizzbuzz.py`: cascaded `n % 15 == 0`,
`n % 3 == 0`, `n % 5 == 0` tests, otherwise `str(n)`. -/
def fizzbuzz (n : Int) : String :=
  if n % 15 = 0 then "FizzBuzz"
  else if n % 3 = 0 then "Fizz"
  else if n % 5 = 0 then "Buzz"
  else toString n

/-! ## The JSON value model

The scripts treat DAP messages as Python dicts produced by `json.loads` and
serialized by `json.dumps`.  `Json` models the JSON values the scripts
exchange: `null`, booleans, (arbitrary-precision) integers, strings, arrays
and (insertion-ordered) objects.  Floating-point literals do not occur in
any message the scripts build or that the claims mention. -/

inductive Json where
  | null : Json
  | bool (b : Bool) : Json
  | num (n : Int) : Json
  | str (s : String) : Json
  | arr (elems : List Json) : Json
  | obj (fields : List (String × Json)) : Json

/-- Characters that `json.dumps` (with its default `ensure_ascii=True`)
emits unescaped inside a string literal: printable ASCII other than the
quote and the backslash. -/
def plainChar (c : Char) : Bool :=
  0x20 ≤ c.toNat && c.toNat ≤ 0x7e && c ≠ '"' && c ≠ '\\'

mutual

/-- Valid JSON values: every string (and object key) consists of characters
that need no escaping, and object keys are distinct (objects model Python
dicts).  On this domain the Lean serializer below agrees byte-for-byte with
Python's `json.dumps`. -/
def Json.valid : Json → Bool
  | .null => true
  | .bool _ => true
  | .num _ => true
  | .str s => s.data.all plainChar
  | .arr elems => validL elems
  | .obj fields => validF fields && decide (fields.map Prod.fst).Nodup

/-- Validity of a list of JSON array elements. -/
def validL : List Json → Bool
  | [] => true
  | e :: es => e.valid && validL es

/-- Validity of a list of JSON object fields. -/
def validF : List (String × Json) → Bool
  | [] => true
  | (k, v) :: fs => k.data.all plainChar && v.valid && validF fs

end

/-! ### Serialization: `json.dumps`

Python's `json.dumps` with its default arguments: item separator `", "`,
key separator `": "`, `true`/`false`/`null` literals, decimal integers,
quoted strings.  On valid values no character needs escaping, so the
output below agrees byte-for-byte with CPython's. -/

/-- The decimal digit character for `d` (used with `d < 10`). -/
def digitChar : Nat → Char
  | 0 => '0' | 1 => '1' | 2 => '2' | 3 => '3' | 4 => '4'
  | 5 => '5' | 6 => '6' | 7 => '7' | 8 => '8' | _ => '9'

/-- Decimal digits of a natural number, most significant first
(Python's `str` on a non-negative `int`). -/
def natChars (n : Nat) : List Char :=
  if n < 10 then [digitChar n]
  else natChars (n / 10) ++ [digitChar (n % 10)]
decreasing_by exact Nat.div_lt_self (by omega) (by omega)

/-- Python's `str` on an `int`: decimal digits with a leading `-` when
negative. -/
def intChars (n : Int) : List Char :=
  if n < 0 then '-' :: natChars n.natAbs else natChars n.toNat

mutual

/-- Python's `json.dumps` (default separators, `ensure_ascii=True`) on the valid
domain, producing the serialized body as a character-per-byte list. -/
def Json.dumps : Json → List Char
  | .null => 'n' :: 'u' :: 'l' :: 'l' :: []
  | .bool true => 't' :: 'r' :: 'u' :: 'e' :: []
  | .bool false => 'f' :: 'a' :: 'l' :: 's' :: 'e' :: []
  | .num n => intChars n
  | .str s => '"' :: (s.data ++ '"' :: [])
  | .arr [] => '[' :: ']' :: []
  | .arr (e :: es) => '[' :: (dumpsArr (e :: es) ++ ']' :: [])
  | .obj [] => '\x7b' :: '\x7d' :: []
  | .obj (f :: fs) => '\x7b' :: (dumpsFields (f :: fs) ++ '\x7d' :: [])

/-- Array elements joined by `", "`. -/
def dumpsArr : List Json → List Char
  | [] => []
  | [e] => e.dumps
  | e :: e' :: es => e.dumps ++ ',' :: ' ' :: dumpsArr (e' :: es)

/-- Object fields, each `"key": value`, joined by `", "`. -/
def dumpsFields : List (String × Json) → List Char
  | [] => []
  | [(k, v)] => '"' :: (k.data ++ '"' :: ':' :: ' ' :: v.dumps)
  | (k, v) :: f :: fs =>
      ('"' :: (k.data ++ '"' :: ':' :: ' ' :: v.dumps)) ++
        ',' :: ' ' :: dumpsFields (f :: fs)

end

end DebuggerMcp

/-! ### Parsing: `json.loads`

A recursive-descent parser for the same fragment, modelling `json.loads`
on the byte strings the scripts exchange.  `loads` demands that the whole
input is consumed (as `json.loads` does) and fails on anything else —
in particular `loads ""` fails, which is how an empty body surfaces as a
`json.JSONDecodeError` in the scripts. -/

namespace DebuggerMcp

/-- Is `c` a decimal digit? -/
def isDigitCh (c : Char) : Bool :=
  48 ≤ c.toNat && c.toNat ≤ 57

/-- Value of the digit list `ds`, most significant first. -/
def digitsVal (ds : List Char) : Nat :=
  ds.foldl (fun a c => 10 * a + (c.toNat - 48)) 0

/-- Scan the content of a string literal up to the closing quote.
Escape sequences are not modelled: valid strings contain none. -/
def scanStr : List Char → Option (List Char × List Char)
  | [] => none
  | c :: r =>
    if c = '"' then some ([], r)
    else if c = '\\' then none
    else (scanStr r).map fun p => (c :: p.1, p.2)

/-- Scan the longest digit prefix. -/
def scanDigits : List Char → List Char × List Char
  | [] => ([], [])
  | c :: r =>
    if isDigitCh c then
      let p := scanDigits r
      (c :: p.1, p.2)
    else ([], c :: r)

mutual

/-- Parse one JSON value from the front of the input, returning the value
and the unconsumed remainder.  The fuel argument only bounds recursion
depth; `loads` supplies more than any input can use. -/
def parseJ : Nat → List Char → Option (Json × List Char)
  | 0, _ => none
  | fuel + 1, s =>
    match s with
    | [] => none
    | c :: r =>
      if c = 'n' then
        match r with
        | 'u' :: 'l' :: 'l' :: r' => some (.null, r')
        | _ => none
      else if c = 't' then
        match r with
        | 'r' :: 'u' :: 'e' :: r' => some (.bool true, r')
        | _ => none
      else if c = 'f' then
        match r with
        | 'a' :: 'l' :: 's' :: 'e' :: r' => some (.bool false, r')
        | _ => none
      else if c = '"' then
        match scanStr r with
        | some (cs, r') => some (.str ⟨cs⟩, r')
        | none => none
      else if c = '-' then
        match scanDigits r with
        | (d :: ds, r') => some (.num (-(digitsVal (d :: ds) : Int)), r')
        | ([], _) => none
      else if c = '[' then
        if r.head? = some ']' then some (.arr [], r.tail)
        else
          match parseElems fuel r with
          | some (es, r') => some (.arr es, r')
          | none => none
      else if c = '\x7b' then
        if r.head? = some '\x7d' then some (.obj [], r.tail)
        else
          match parseFields fuel r with
          | some (fs, r') => some (.obj fs, r')
          | none => none
      else if isDigitCh c then
        match scanDigits (c :: r) with
        | (d :: ds, r') => some (.num (digitsVal (d :: ds) : Int), r')
        | ([], _) => none
      else none

/-- Parse `", "`-separated array elements up to the closing `]`. -/
def parseElems : Nat → List Char → Option (List Json × List Char)
  | 0, _ => none
  | fuel + 1, s =>
    match parseJ fuel s with
    | none => none
    | some (j, r) =>
      match r with
      | ',' :: ' ' :: r' =>
          (parseElems fuel r').map fun p => (j :: p.1, p.2)
      | ']' :: r' => some ([j], r')
      | _ => none

/-- Parse `", "`-separated `"key": value` fields up to the closing brace. -/
def parseFields : Nat → List Char → Option (List (String × Json) × List Char)
  | 0, _ => none
  | fuel + 1, s =>
    match s with
    | '"' :: r =>
      match scanStr r with
      | none => none
      | some (k, r₁) =>
        match r₁ with
        | ':' :: ' ' :: r₂ =>
          match parseJ fuel r₂ with
          | none => none
          | some (v, r₃) =>
            match r₃ with
            | ',' :: ' ' :: r₄ =>
                (parseFields fuel r₄).map fun p => ((⟨k⟩, v) :: p.1, p.2)
            | '\x7d' :: r₄ => some ([(⟨k⟩, v)], r₄)
            | _ => none
        | _ => none
    | _ => none

end

/-- Python's `json.loads`: parse the whole input as one JSON value; any parse
failure or trailing data is a `json.JSONDecodeError` in Python, `none`
here. -/
def loads (s : List Char) : Option Json :=
  match parseJ (s.length + 1) s with
  | some (j, []) => some j
  | _ => none

end DebuggerMcp

/-! ### Round trip of the JSON codec -/

namespace DebuggerMcp

/-- Does the input not begin with a decimal digit?  (Digit scanning is the
only production whose end depends on what follows it.) -/
def noDigStart : List Char → Bool
  | [] => true
  | c :: _ => !isDigitCh c

theorem toNat_digitChar {d : Nat} (h : d < 10) :
    (digitChar d).toNat = 48 + d := by
  interval_cases d <;> rfl

theorem isDigitCh_digitChar {d : Nat} (h : d < 10) :
    isDigitCh (digitChar d) = true := by
  interval_cases d <;> decide

theorem natChars_ne_nil (n : Nat) : natChars n ≠ [] := by
  rw [natChars]
  split <;> simp

theorem natChars_all (n : Nat) : (natChars n).all isDigitCh = true := by
  induction n using Nat.strong_induction_on with
  | _ n ih =>
    rw [natChars]
    split
    · simpa using isDigitCh_digitChar (by omega)
    · rename_i h
      simp only [List.all_append, List.all_cons, List.all_nil, Bool.and_eq_true]
      exact ⟨by simpa using ih (n / 10) (Nat.div_lt_self (by omega) (by omega)),
             by simpa using isDigitCh_digitChar (Nat.mod_lt _ (by omega))⟩

theorem digitsVal_append_one (ds : List Char) (c : Char) :
    digitsVal (ds ++ [c]) = 10 * digitsVal ds + (c.toNat - 48) := by
  simp [digitsVal]

theorem digitsVal_natChars (n : Nat) : digitsVal (natChars n) = n := by
  induction n using Nat.strong_induction_on with
  | _ n ih =>
    rw [natChars]
    split
    · rename_i h
      simp [digitsVal, toNat_digitChar h]
    · rename_i h
      rw [digitsVal_append_one, ih (n / 10) (Nat.div_lt_self (by omega) (by omega)),
          toNat_digitChar (Nat.mod_lt _ (by omega))]
      omega

theorem scanDigits_append (ds rest : List Char) (hds : ds.all isDigitCh = true)
    (hrest : noDigStart rest = true) :
    scanDigits (ds ++ rest) = (ds, rest) := by
  induction ds with
  | nil =>
    cases rest with
    | nil => rfl
    | cons c r =>
      simp only [noDigStart, Bool.not_eq_true'] at hrest
      simp [scanDigits, hrest]
  | cons c ds ih =>
    simp only [List.all_cons, Bool.and_eq_true] at hds
    simp [scanDigits, hds.1, ih hds.2]

theorem scanStr_append (cs rest : List Char) (h : cs.all plainChar = true) :
    scanStr (cs ++ '"' :: rest) = some (cs, rest) := by
  induction cs with
  | nil => simp [scanStr]
  | cons c cs ih =>
    simp only [List.all_cons, Bool.and_eq_true] at h
    have hc := h.1
    simp only [plainChar, Bool.and_eq_true, decide_eq_true_eq] at hc
    simp [scanStr, hc.1.2, hc.2, ih h.2]

theorem isDigitCh_ne {c : Char} (h : isDigitCh c = true) :
    c ≠ 'n' ∧ c ≠ 't' ∧ c ≠ 'f' ∧ c ≠ '"' ∧ c ≠ '-' ∧ c ≠ '[' ∧ c ≠ '\x7b' := by
  refine ⟨?_, ?_, ?_, ?_, ?_, ?_, ?_⟩ <;> (rintro rfl; revert h; decide)

theorem dumps_ne_nil (j : Json) : Json.dumps j ≠ [] := by
  cases j with
  | num n =>
    simp only [Json.dumps, intChars]
    split <;> simp [natChars_ne_nil]
  | bool b => cases b <;> simp [Json.dumps]
  | arr es => cases es <;> simp [Json.dumps]
  | obj fs => cases fs <;> simp [Json.dumps]
  | _ => simp [Json.dumps]

end DebuggerMcp

namespace DebuggerMcp

theorem dumps_head_ne (j : Json) :
    ∃ c r, Json.dumps j = c :: r ∧ c ≠ ']' ∧ c ≠ '\x7d' := by
  cases j with
  | null => exact ⟨'n', _, rfl, by decide, by decide⟩
  | bool b =>
    cases b with
    | false => exact ⟨'f', _, rfl, by decide, by decide⟩
    | true => exact ⟨'t', _, rfl, by decide, by decide⟩
  | str s => exact ⟨'"', _, rfl, by decide, by decide⟩
  | arr es =>
    cases es with
    | nil => exact ⟨'[', _, rfl, by decide, by decide⟩
    | cons e es' => exact ⟨'[', _, rfl, by decide, by decide⟩
  | obj fs =>
    cases fs with
    | nil => exact ⟨'\x7b', _, rfl, by decide, by decide⟩
    | cons f fs' => exact ⟨'\x7b', _, rfl, by decide, by decide⟩
  | num n =>
    simp only [Json.dumps, intChars]
    split
    · exact ⟨'-', _, rfl, by decide, by decide⟩
    · obtain ⟨c, r, hcr⟩ : ∃ c r, natChars n.toNat = c :: r := by
        cases h : natChars n.toNat with
        | nil => exact absurd h (natChars_ne_nil _)
        | cons c r => exact ⟨c, r, rfl⟩
      have hd : isDigitCh c = true := by
        have h := natChars_all n.toNat
        rw [hcr] at h
        simp only [List.all_cons, Bool.and_eq_true] at h
        exact h.1
      refine ⟨c, r, hcr, ?_, ?_⟩ <;> (rintro rfl; revert hd; decide)

theorem dumpsArr_cons (e : Json) (es : List Json) :
    ∃ t, dumpsArr (e :: es) = Json.dumps e ++ t := by
  cases es with
  | nil => exact ⟨[], by simp [dumpsArr]⟩
  | cons e' es' => exact ⟨_, rfl⟩

theorem dumpsFields_cons (f : String × Json) (fs : List (String × Json)) :
    ∃ t, dumpsFields (f :: fs) = '"' :: t := by
  obtain ⟨k, v⟩ := f
  cases fs with
  | nil => exact ⟨_, rfl⟩
  | cons f' fs' => exact ⟨_, rfl⟩

end DebuggerMcp

namespace DebuggerMcp

theorem parse_dumps_all (fuel : Nat) :
    (∀ j rest, Json.valid j = true → noDigStart rest = true →
       (Json.dumps j).length ≤ fuel →
       parseJ fuel (Json.dumps j ++ rest) = some (j, rest)) ∧
    (∀ es rest, es ≠ [] → validL es = true →
       (dumpsArr es).length < fuel →
       parseElems fuel (dumpsArr es ++ ']' :: rest) = some (es, rest)) ∧
    (∀ fs rest, fs ≠ [] → validF fs = true →
       (dumpsFields fs).length < fuel →
       parseFields fuel (dumpsFields fs ++ '\x7d' :: rest) = some (fs, rest)) := by
  induction fuel with
  | zero =>
    refine ⟨fun j rest _ _ hlen => ?_, fun es rest _ _ hlen => by omega,
            fun fs rest _ _ hlen => by omega⟩
    have := dumps_ne_nil j
    have : (Json.dumps j).length ≠ 0 := by
      intro h0
      exact this (List.length_eq_zero.mp h0)
    omega
  | succ f ih =>
    obtain ⟨ihP, ihQ, ihR⟩ := ih
    refine ⟨?_, ?_, ?_⟩
    · -- parseJ
      intro j rest hv hnd hlen
      cases j with
      | null => simp [Json.dumps, parseJ]
      | bool b => cases b <;> simp [Json.dumps, parseJ]
      | str s =>
        have hplain : s.data.all plainChar = true := by simpa [Json.valid] using hv
        have heq : Json.dumps (.str s) ++ rest = '"' :: (s.data ++ '"' :: rest) := by
          simp [Json.dumps]
        rw [heq]
        simp only [parseJ]
        rw [scanStr_append s.data rest hplain]
        rfl
      | num n =>
        by_cases hn : n < 0
        · have heq : Json.dumps (.num n) ++ rest = '-' :: (natChars n.natAbs ++ rest) := by
            simp [Json.dumps, intChars, hn]
          rw [heq]
          simp only [parseJ]
          rw [scanDigits_append _ _ (natChars_all _) hnd]
          obtain ⟨d, ds, hds⟩ : ∃ d ds, natChars n.natAbs = d :: ds := by
            cases h : natChars n.natAbs with
            | nil => exact absurd h (natChars_ne_nil _)
            | cons d ds => exact ⟨d, ds, rfl⟩
          rw [hds]
          have hval : digitsVal (d :: ds) = n.natAbs := by
            rw [← hds, digitsVal_natChars]
          simp only [hval]
          have : -((n.natAbs : Int)) = n := by omega
          rw [this]
          simp
        · have heq : Json.dumps (.num n) ++ rest = natChars n.toNat ++ rest := by
            simp [Json.dumps, intChars, hn]
          obtain ⟨d, ds, hds⟩ : ∃ d ds, natChars n.toNat = d :: ds := by
            cases h : natChars n.toNat with
            | nil => exact absurd h (natChars_ne_nil _)
            | cons d ds => exact ⟨d, ds, rfl⟩
          have hd : isDigitCh d = true := by
            have h := natChars_all n.toNat
            rw [hds] at h
            simp only [List.all_cons, Bool.and_eq_true] at h
            exact h.1
          obtain ⟨h1, h2, h3, h4, h5, h6, h7⟩ := isDigitCh_ne hd
          rw [heq, hds, List.cons_append]
          simp only [parseJ]
          rw [if_neg h1, if_neg h2, if_neg h3, if_neg h4, if_neg h5, if_neg h6,
              if_neg h7, if_pos hd]
          rw [← List.cons_append, ← hds, scanDigits_append _ _ (natChars_all _) hnd, hds]
          have hval : digitsVal (d :: ds) = n.toNat := by
            rw [← hds, digitsVal_natChars]
          simp only [hval]
          have : ((n.toNat : Int)) = n := by omega
          rw [this]
      | arr es =>
        cases es with
        | nil => simp [Json.dumps, parseJ]
        | cons e es' =>
          have hv' : validL (e :: es') = true := by simpa [Json.valid] using hv
          have hlen' : (dumpsArr (e :: es')).length < f := by
            simp [Json.dumps] at hlen
            omega
          have heq : Json.dumps (.arr (e :: es')) ++ rest
              = '[' :: (dumpsArr (e :: es') ++ ']' :: rest) := by
            simp [Json.dumps]
          rw [heq]
          simp only [parseJ]
          have hhead : ¬ ((dumpsArr (e :: es') ++ ']' :: rest).head? = some ']') := by
            obtain ⟨t, ht⟩ := dumpsArr_cons e es'
            obtain ⟨c0, r0, hc0, hcne, _⟩ := dumps_head_ne e
            rw [ht, hc0]
            simpa using hcne
          rw [if_neg hhead, ihQ (e :: es') rest (by simp) hv' hlen']
          simp
      | obj fs =>
        cases fs with
        | nil => simp [Json.dumps, parseJ]
        | cons p fs' =>
          have hv' : validF (p :: fs') = true := by
            simp only [Json.valid, Bool.and_eq_true] at hv
            exact hv.1
          have hlen' : (dumpsFields (p :: fs')).length < f := by
            simp [Json.dumps] at hlen
            omega
          have heq : Json.dumps (.obj (p :: fs')) ++ rest
              = '\x7b' :: (dumpsFields (p :: fs') ++ '\x7d' :: rest) := by
            simp [Json.dumps]
          rw [heq]
          simp only [parseJ]
          have hhead : ¬ ((dumpsFields (p :: fs') ++ '\x7d' :: rest).head? = some '\x7d') := by
            obtain ⟨t, ht⟩ := dumpsFields_cons p fs'
            rw [ht]
            simp
          rw [if_neg hhead, ihR (p :: fs') rest (by simp) hv' hlen']
          simp
    · -- parseElems
      intro es rest hne hv hlen
      match es with
      | [] => exact absurd rfl hne
      | [e] =>
        have hve : Json.valid e = true := by
          simp only [validL, Bool.and_eq_true] at hv
          exact hv.1
        have hlen' : (Json.dumps e).length ≤ f := by
          simp only [dumpsArr] at hlen
          omega
        simp only [dumpsArr]
        simp only [parseElems]
        rw [ihP e (']' :: rest) hve rfl hlen']
        simp
      | e :: e' :: es'' =>
        have hve : Json.valid e = true := by
          simp only [validL, Bool.and_eq_true] at hv
          exact hv.1
        have hv' : validL (e' :: es'') = true := by
          simp only [validL, Bool.and_eq_true] at hv ⊢
          exact hv.2
        have hlens : (Json.dumps e).length ≤ f ∧ (dumpsArr (e' :: es'')).length < f := by
          simp only [dumpsArr, List.length_append, List.length_cons] at hlen
          have := dumps_ne_nil e
          constructor <;> omega
        have heq : dumpsArr (e :: e' :: es'') ++ ']' :: rest
            = Json.dumps e ++ (',' :: ' ' :: (dumpsArr (e' :: es'') ++ ']' :: rest)) := by
          simp [dumpsArr]
        rw [heq]
        simp only [parseElems]
        rw [ihP e (',' :: ' ' :: (dumpsArr (e' :: es'') ++ ']' :: rest)) hve rfl hlens.1]
        simp [ihQ (e' :: es'') rest (by simp) hv' hlens.2]
    · -- parseFields
      intro fs rest hne hv hlen
      match fs with
      | [] => exact absurd rfl hne
      | [(k, v)] =>
        have hkv : k.data.all plainChar = true ∧ Json.valid v = true := by
          simp only [validF, Bool.and_eq_true] at hv
          exact ⟨hv.1.1, hv.1.2⟩
        have hlen' : (Json.dumps v).length ≤ f := by
          simp only [dumpsFields, List.length_cons, List.length_append] at hlen
          omega
        have heq : dumpsFields [(k, v)] ++ '\x7d' :: rest
            = '"' :: (k.data ++ '"' :: (':' :: ' ' :: (Json.dumps v ++ '\x7d' :: rest))) := by
          simp [dumpsFields]
        rw [heq]
        simp only [parseFields]
        rw [scanStr_append k.data _ hkv.1]
        simp [ihP v ('\x7d' :: rest) hkv.2 rfl hlen']
      | (k, v) :: p :: fs'' =>
        have hkv : k.data.all plainChar = true ∧ Json.valid v = true := by
          simp only [validF, Bool.and_eq_true] at hv
          exact ⟨hv.1.1, hv.1.2⟩
        have hv' : validF (p :: fs'') = true := by
          obtain ⟨k2, v2⟩ := p
          simp only [validF, Bool.and_eq_true] at hv ⊢
          exact hv.2
        have hlens : (Json.dumps v).length ≤ f ∧ (dumpsFields (p :: fs'')).length < f := by
          simp only [dumpsFields, List.length_cons, List.length_append] at hlen
          constructor <;> omega
        have heq : dumpsFields ((k, v) :: p :: fs'') ++ '\x7d' :: rest
            = '"' :: (k.data ++ '"' :: (':' :: ' ' ::
                (Json.dumps v ++ ',' :: ' ' :: (dumpsFields (p :: fs'') ++ '\x7d' :: rest)))) := by
          simp [dumpsFields]
        rw [heq]
        simp only [parseFields]
        rw [scanStr_append k.data _ hkv.1]
        simp [ihP v (',' :: ' ' :: (dumpsFields (p :: fs'') ++ '\x7d' :: rest)) hkv.2 rfl hlens.1,
              ihR (p :: fs'') rest (by simp) hv' hlens.2]

end DebuggerMcp

namespace DebuggerMcp

theorem loads_dumps (j : Json) (h : Json.valid j = true) :
    loads (Json.dumps j) = some j := by
  unfold loads
  have hp := (parse_dumps_all ((Json.dumps j).length + 1)).1 j [] h rfl (by omega)
  rw [List.append_nil] at hp
  rw [hp]

end DebuggerMcp

/-! ## Transport: DAP wire framing

The writers: `DAPTester._send_message` (`scripts/test_dap_standalone.py`
lines 132-141) computes `Content-Length` from the UTF-8-encoded byte
length of the body; `send_message` (`test_correct_sequence.py` lines 5-9)
computes it from the character count of the body string.  The readers:
`DAPTester._read_message` (lines 106-130) scans bytes until `\r\n\r\n`,
then requires a `Content-Length:`-prefixed header line, raising
`ValueError` if none is found or its value is non-numeric;
`read_message` (`test_correct_sequence.py` lines 12-36) reads header
lines with `readline`, collects `k: v` pairs into a dict, and defaults a
missing `Content-Length` to `0`. -/

namespace DebuggerMcp

/-- Is `c` an ASCII character (one byte in UTF-8)? -/
def asciiCh (c : Char) : Bool := c.toNat < 128

/-- Number of bytes of `c` in UTF-8. -/
def charUtf8Len (c : Char) : Nat :=
  if c.toNat < 0x80 then 1
  else if c.toNat < 0x800 then 2
  else if c.toNat < 0x10000 then 3
  else 4

/-- Byte length of the UTF-8 encoding of a string (Python's
`len(s.encode('utf-8'))`). -/
def utf8Len (s : List Char) : Nat := (s.map charUtf8Len).sum

/-- The frame header both scripts build: the ASCII line
`Content-Length: <n>` terminated by two CRLFs. -/
def contentLengthHeader (n : Nat) : List Char :=
  "Content-Length: ".toList ++ natChars n ++ ['\r', '\n', '\r', '\n']

/-- Method `DAPTester._send_message`: `body = json.dumps(message).encode('utf-8')`,
header from `len(body)` (a byte count), then `header + body` is written. -/
def sendFrame (m : Json) : List Char :=
  contentLengthHeader (utf8Len (Json.dumps m)) ++ Json.dumps m

/-- Function `send_message` of `test_correct_sequence.py`: the header is built from
`len(content)` where `content = json.dumps(msg)` is a `str` (a character
count), and `(header + content).encode('utf-8')` is written. -/
def sendFrameCS (m : Json) : List Char :=
  contentLengthHeader (Json.dumps m).length ++ Json.dumps m

/-- The byte-at-a-time header scan of `DAPTester._read_message`: read
until the accumulated bytes end with `\r\n\r\n`; `none` when the stream
ends first (`read(1)` returned `b''`, the function returns `None`). -/
def splitFrame : List Char → Option (List Char × List Char)
  | [] => none
  | c :: rest =>
    if c = '\r' then
      match rest with
      | '\n' :: '\r' :: '\n' :: r2 => some (['\r', '\n', '\r', '\n'], r2)
      | _ => (splitFrame rest).map fun p => (c :: p.1, p.2)
    else (splitFrame rest).map fun p => (c :: p.1, p.2)

/-- Python's `str.split('\r\n')`. -/
def splitCRLF : List Char → List (List Char)
  | [] => [[]]
  | c :: rest =>
    if c = '\r' ∧ rest.head? = some '\n' then [] :: splitCRLF rest.tail
    else
      match splitCRLF rest with
      | [] => [[c]]
      | g :: gs => (c :: g) :: gs
termination_by s => s.length
decreasing_by
  · simp only [List.length_cons, List.length_tail]
    omega
  · simp

/-- Python's `str.split(':')` (split on every colon). -/
def splitColon : List Char → List (List Char)
  | [] => [[]]
  | c :: rest =>
    if c = ':' then [] :: splitColon rest
    else
      match splitColon rest with
      | [] => [[c]]
      | g :: gs => (c :: g) :: gs

/-- Python's `str.split(':', 1)` on a string containing a colon: the parts
before and after the first colon. -/
def splitColon1 : List Char → List Char × List Char
  | [] => ([], [])
  | c :: rest =>
    if c = ':' then ([], rest)
    else
      let p := splitColon1 rest
      (c :: p.1, p.2)

/-- The whitespace characters `str.strip` removes that can occur here. -/
def isSpaceCh (c : Char) : Bool :=
  c = ' ' || c = '\t' || c = '\r' || c = '\n'

/-- Python's `str.strip()`. -/
def stripChars (s : List Char) : List Char :=
  ((s.dropWhile isSpaceCh).reverse.dropWhile isSpaceCh).reverse

/-- Python's `str.startswith`. -/
def leadsWith : List Char → List Char → Bool
  | [], _ => true
  | _ :: _, [] => false
  | p :: ps, c :: cs => p = c && leadsWith ps cs

/-- Python's `int(s)` on the ASCII inputs that occur here: optional
whitespace, optional sign, decimal digits; `none` is a `ValueError`.
(Underscore separators and non-ASCII digits, which CPython also accepts,
do not occur in any frame the scripts handle.) -/
def pyInt (s : List Char) : Option Int :=
  match stripChars s with
  | [] => none
  | c :: ds =>
    if c = '-' then
      if ds ≠ [] && ds.all isDigitCh then some (-(digitsVal ds : Int)) else none
    else if c = '+' then
      if ds ≠ [] && ds.all isDigitCh then some (digitsVal ds) else none
    else if (c :: ds).all isDigitCh then some (digitsVal (c :: ds)) else none

/-- The `for`/`else` loop of `_read_message`: the first header line
starting with `Content-Length:`, if any. -/
def findCL : List (List Char) → Option (List Char)
  | [] => none
  | l :: ls => if leadsWith "Content-Length:".toList l then some l else findCL ls

/-- A Python exception relevant to the readers. -/
inductive PyErr where
  | valueError
  | jsonDecodeError
deriving DecidableEq

/-- Result of `DAPTester._read_message`: `None` on end of stream, a raised
exception, or a parsed message plus the unconsumed remainder of the
stream. -/
inductive SARead where
  | eof : SARead
  | exn (e : PyErr) : SARead
  | msg (j : Json) (rest : List Char) : SARead

/-- Method `DAPTester._read_message` (`scripts/test_dap_standalone.py` lines
106-130): scan the header up to `\r\n\r\n`, find the `Content-Length:`
line (raising `ValueError` when absent), parse its value with `int`
(raising `ValueError` when non-numeric), read exactly that many body
bytes, `json.loads` them. -/
def readMessageSA (input : List Char) : SARead :=
  match splitFrame input with
  | none => .eof
  | some (header, rest) =>
    match findCL (splitCRLF header) with
    | none => .exn .valueError
    | some line =>
      match (splitColon line).get? 1 with
      | none => .exn .valueError
      | some part =>
        match pyInt (stripChars part) with
        | none => .exn .valueError
        | some len =>
          let body := if len < 0 then rest else rest.take len.toNat
          let rest' := if len < 0 then [] else rest.drop len.toNat
          match loads body with
          | some j => .msg j rest'
          | none => .exn .jsonDecodeError

/-- Python's `file.readline()` on a byte stream: up to and including the
next `\n`, or the remainder at end of stream. -/
def pyReadLine : List Char → List Char × List Char
  | [] => ([], [])
  | c :: rest =>
    if c = '\n' then ([c], rest)
    else
      let p := pyReadLine rest
      (c :: p.1, p.2)

/-- Python dict assignment `d[k] = v` (update in place, else append). -/
def dictSet (d : List (List Char × List Char)) (k v : List Char) :
    List (List Char × List Char) :=
  match d with
  | [] => [(k, v)]
  | (k', v') :: d' => if k' = k then (k', v) :: d' else (k', v') :: dictSet d' k v

/-- Python dict lookup `d.get(k)`. -/
def dictGet (d : List (List Char × List Char)) (k : List Char) :
    Option (List Char) :=
  match d with
  | [] => none
  | (k', v') :: d' => if k' = k then some v' else dictGet d' k

theorem pyReadLine_rest_length (s : List Char) :
    (pyReadLine s).2.length ≤ s.length := by
  induction s with
  | nil => simp [pyReadLine]
  | cons c rest ih =>
    by_cases hc : c = '\n'
    · simp [pyReadLine, hc]
    · simp only [pyReadLine, if_neg hc]
      simpa using Nat.le_succ_of_le ih

theorem pyReadLine_rest_lt (c : Char) (r : List Char) :
    (pyReadLine (c :: r)).2.length < (c :: r).length := by
  by_cases hc : c = '\n'
  · simp [pyReadLine, hc]
  · simp only [pyReadLine, if_neg hc]
    exact Nat.lt_succ_of_le (pyReadLine_rest_length r)

/-- The header loop of `read_message` (`test_correct_sequence.py` lines
19-27): `readline` until an empty read or a blank line, collecting
`k: v` pairs (`line.strip().split(':', 1)`, both parts stripped) into
the `headers` dict. -/
def csHeaders (input : List Char) (hs : List (List Char × List Char)) :
    List (List Char × List Char) × List Char :=
  match input with
  | [] => (hs, [])
  | c :: rest =>
    let p := pyReadLine (c :: rest)
    let line := p.1
    if line = ['\r', '\n'] || line = ['\n'] then (hs, p.2)
    else if line.contains ':' then
      let q := splitColon1 (stripChars line)
      csHeaders p.2 (dictSet hs (stripChars q.1) (stripChars q.2))
    else csHeaders p.2 hs
termination_by input.length
decreasing_by
  all_goals exact pyReadLine_rest_lt _ _

/-- The body of `read_message` (`test_correct_sequence.py` lines 18-33)
before its enclosing `try`/`except`: header loop, then
`length` parsed with `int` from the dict entry for `Content-Length`,
with default `0` — so a missing key
defaults to the integer `0` — then read `length` bytes and
`json.loads` them.  `.error` is the exception the `except` clause
would catch. -/
def readMessageCSInner (input : List Char) : Except PyErr (Json × List Char) :=
  let p := csHeaders input []
  let lenOpt : Option Int :=
    match dictGet p.1 "Content-Length".toList with
    | some v => pyInt v
    | none => some 0
  match lenOpt with
  | none => .error .valueError
  | some len =>
    let body := if len < 0 then p.2 else p.2.take len.toNat
    let rest' := if len < 0 then [] else p.2.drop len.toNat
    match loads body with
    | some j => .ok (j, rest')
    | none => .error .jsonDecodeError

/-- Function `read_message` of `test_correct_sequence.py`: the `except` clause
maps any exception to `None`. -/
def readMessageCS (input : List Char) : Option (Json × List Char) :=
  (readMessageCSInner input).toOption

end DebuggerMcp

namespace DebuggerMcp

theorem ascii_of_digit {c : Char} (h : isDigitCh c = true) : asciiCh c = true := by
  simp only [isDigitCh, Bool.and_eq_true, decide_eq_true_eq] at h
  simp only [asciiCh, decide_eq_true_eq]
  omega

theorem ascii_of_plain {c : Char} (h : plainChar c = true) : asciiCh c = true := by
  simp only [plainChar, Bool.and_eq_true, decide_eq_true_eq] at h
  simp only [asciiCh, decide_eq_true_eq]
  omega

theorem natChars_ascii (n : Nat) : (natChars n).all asciiCh = true := by
  have h := natChars_all n
  simp only [List.all_eq_true] at h ⊢
  exact fun c hc => ascii_of_digit (h c hc)

theorem dumps_ascii_all (fuel : Nat) :
    (∀ j : Json, sizeOf j ≤ fuel → Json.valid j = true →
       (Json.dumps j).all asciiCh = true) ∧
    (∀ es : List Json, sizeOf es ≤ fuel → validL es = true →
       (dumpsArr es).all asciiCh = true) ∧
    (∀ fs : List (String × Json), sizeOf fs ≤ fuel → validF fs = true →
       (dumpsFields fs).all asciiCh = true) := by
  induction fuel with
  | zero =>
    refine ⟨fun j hs _ => ?_, fun es hs _ => ?_, fun fs hs _ => ?_⟩
    · cases j <;> simp at hs
    · cases es <;> simp at hs
    · cases fs <;> simp at hs
  | succ f ih =>
    obtain ⟨ihP, ihQ, ihR⟩ := ih
    refine ⟨?_, ?_, ?_⟩
    · intro j hs hv
      cases j with
      | null => decide
      | bool b => cases b <;> decide
      | num n =>
        simp only [Json.dumps, intChars]
        split
        · simp only [List.all_cons, Bool.and_eq_true]
          exact ⟨by decide, natChars_ascii _⟩
        · exact natChars_ascii _
      | str s =>
        have hp : s.data.all plainChar = true := by simpa [Json.valid] using hv
        simp only [Json.dumps, List.all_cons, List.all_append, List.all_nil,
          Bool.and_eq_true, List.all_eq_true] at *
        refine ⟨by decide, fun c hc => ascii_of_plain (hp c hc), by decide⟩
      | arr es =>
        cases es with
        | nil => decide
        | cons e es' =>
          have hq := ihQ (e :: es') (by simp at hs ⊢; omega)
            (by simpa [Json.valid] using hv)
          simp only [Json.dumps, List.all_cons, List.all_append, List.all_nil,
            Bool.and_eq_true] at *
          refine ⟨by decide, hq, by decide⟩
      | obj fs =>
        cases fs with
        | nil => decide
        | cons p fs' =>
          have hvf : validF (p :: fs') = true := by
            simp only [Json.valid, Bool.and_eq_true] at hv
            exact hv.1
          have hr := ihR (p :: fs') (by simp at hs ⊢; omega) hvf
          simp only [Json.dumps, List.all_cons, List.all_append, List.all_nil,
            Bool.and_eq_true] at *
          refine ⟨by decide, hr, by decide⟩
    · intro es hs hv
      cases es with
      | nil => simp [dumpsArr]
      | cons e es' =>
        cases es' with
        | nil =>
          have : Json.valid e = true := by
            simp only [validL, Bool.and_eq_true] at hv
            exact hv.1
          have h1 := ihP e (by simp at hs ⊢; omega) this
          simpa [dumpsArr] using h1
        | cons e' es'' =>
          have hv1 : Json.valid e = true := by
            simp only [validL, Bool.and_eq_true] at hv
            exact hv.1
          have hv2 : validL (e' :: es'') = true := by
            simp only [validL, Bool.and_eq_true] at hv ⊢
            exact hv.2
          have h1 := ihP e (by simp at hs ⊢; omega) hv1
          have h2 := ihQ (e' :: es'') (by simp at hs ⊢; omega) hv2
          simp only [dumpsArr, List.all_cons, List.all_append, Bool.and_eq_true]
          exact ⟨h1, by decide, by decide, h2⟩
    · intro fs hs hv
      cases fs with
      | nil => simp [dumpsFields]
      | cons p fs' =>
        obtain ⟨k, v⟩ := p
        cases fs' with
        | nil =>
          have hkv : k.data.all plainChar = true ∧ Json.valid v = true := by
            simp only [validF, Bool.and_eq_true] at hv
            exact ⟨hv.1.1, hv.1.2⟩
          have h1 := ihP v (by simp at hs ⊢; omega) hkv.2
          simp only [dumpsFields, List.all_cons, List.all_append, Bool.and_eq_true,
            List.all_eq_true] at *
          refine ⟨by decide, fun c hc => ascii_of_plain (hkv.1 c hc),
                  by decide, by decide, by decide, h1⟩
        | cons p' fs'' =>
          have hkv : k.data.all plainChar = true ∧ Json.valid v = true := by
            simp only [validF, Bool.and_eq_true] at hv
            exact ⟨hv.1.1, hv.1.2⟩
          have hv2 : validF (p' :: fs'') = true := by
            obtain ⟨k2, v2⟩ := p'
            simp only [validF, Bool.and_eq_true] at hv ⊢
            exact hv.2
          have h1 := ihP v (by simp at hs ⊢; omega) hkv.2
          have h2 := ihR (p' :: fs'') (by simp at hs ⊢; omega) hv2
          simp only [dumpsFields, List.all_cons, List.all_append, Bool.and_eq_true,
            List.all_eq_true] at *
          refine ⟨⟨by decide, fun c hc => ascii_of_plain (hkv.1 c hc),
                   by decide, by decide, by decide, h1⟩, by decide, by decide, h2⟩

theorem dumps_ascii (j : Json) (hv : Json.valid j = true) :
    (Json.dumps j).all asciiCh = true :=
  (dumps_ascii_all (sizeOf j)).1 j le_rfl hv

theorem utf8Len_ascii (s : List Char) (h : s.all asciiCh = true) :
    utf8Len s = s.length := by
  induction s with
  | nil => rfl
  | cons c cs ih =>
    simp only [List.all_cons, Bool.and_eq_true] at h
    have hc : c.toNat < 128 := by
      have := h.1
      simpa [asciiCh] using this
    simp only [utf8Len, List.map_cons, List.sum_cons, charUtf8Len,
      if_pos (by omega : c.toNat < 0x80), List.length_cons]
    have := ih h.2
    simp only [utf8Len] at this
    omega

end DebuggerMcp

namespace DebuggerMcp

theorem splitFrame_line (line rest : List Char) (h : '\r' ∉ line) :
    splitFrame (line ++ '\r' :: '\n' :: '\r' :: '\n' :: rest)
      = some (line ++ ['\r', '\n', '\r', '\n'], rest) := by
  induction line with
  | nil => simp [splitFrame]
  | cons c cs ih =>
    have hc : ¬ (c = '\r') := fun hh => h (by rw [hh]; exact List.mem_cons_self _ _)
    simp only [List.cons_append, splitFrame, if_neg hc, List.append_eq]
    rw [ih (fun hm => h (List.mem_cons_of_mem _ hm))]
    rfl

theorem splitCRLF_line (line : List Char) (h : '\r' ∉ line) :
    splitCRLF (line ++ ['\r', '\n', '\r', '\n']) = [line, [], []] := by
  induction line with
  | nil => simp [splitCRLF]
  | cons c cs ih =>
    have hc : ¬ (c = '\r' ∧ ((cs ++ ['\r', '\n', '\r', '\n']).head? = some '\n')) :=
      fun hh => h (by rw [hh.1]; exact List.mem_cons_self _ _)
    rw [List.cons_append, splitCRLF]
    rw [if_neg hc, ih (fun hm => h (List.mem_cons_of_mem _ hm))]

theorem leadsWith_append (p t : List Char) : leadsWith p (p ++ t) = true := by
  induction p with
  | nil => rfl
  | cons c cs ih => simp [leadsWith, ih]

theorem splitColon_nocolon (s : List Char) (h : ':' ∉ s) : splitColon s = [s] := by
  induction s with
  | nil => rfl
  | cons c cs ih =>
    have hc : ¬ (c = ':') := fun hh => h (by rw [hh]; exact List.mem_cons_self _ _)
    rw [splitColon, if_neg hc, ih (fun hm => h (List.mem_cons_of_mem _ hm))]

theorem splitColon_split (a b : List Char) (ha : ':' ∉ a) (hb : ':' ∉ b) :
    splitColon (a ++ ':' :: b) = [a, b] := by
  induction a with
  | nil => simp [splitColon, splitColon_nocolon b hb]
  | cons c cs ih =>
    have hc : ¬ (c = ':') := fun hh => ha (by rw [hh]; exact List.mem_cons_self _ _)
    rw [List.cons_append, splitColon, if_neg hc,
        ih (fun hm => ha (List.mem_cons_of_mem _ hm))]

theorem dropWhile_nofalse (p : Char → Bool) (s : List Char)
    (h : ∀ c ∈ s, p c = false) : s.dropWhile p = s := by
  cases s with
  | nil => rfl
  | cons c cs =>
    rw [List.dropWhile_cons, if_neg]
    rw [h c (List.mem_cons_self _ _)]
    simp

theorem stripChars_nospace (s : List Char) (h : ∀ c ∈ s, isSpaceCh c = false) :
    stripChars s = s := by
  unfold stripChars
  rw [dropWhile_nofalse _ _ h,
      dropWhile_nofalse _ _ (fun c hc => h c (List.mem_reverse.mp hc)),
      List.reverse_reverse]

theorem stripChars_space_cons (s : List Char) :
    stripChars (' ' :: s) = stripChars s := by
  unfold stripChars
  rw [List.dropWhile_cons, if_pos (by decide)]

theorem digit_not_space {c : Char} (h : isDigitCh c = true) :
    isSpaceCh c = false := by
  by_contra hs
  rw [Bool.not_eq_false] at hs
  simp only [isSpaceCh, Bool.or_eq_true, decide_eq_true_eq] at hs
  rcases hs with ((h1 | h1) | h1) | h1 <;> (subst h1; revert h; decide)

theorem isDigitCh_ne_plus {c : Char} (h : isDigitCh c = true) : c ≠ '+' := by
  rintro rfl; revert h; decide

theorem isDigitCh_ne_colon {c : Char} (h : isDigitCh c = true) : c ≠ ':' := by
  rintro rfl; revert h; decide

theorem isDigitCh_ne_cr {c : Char} (h : isDigitCh c = true) : c ≠ '\r' := by
  rintro rfl; revert h; decide

theorem stripChars_natChars (n : Nat) : stripChars (natChars n) = natChars n := by
  refine stripChars_nospace _ (fun c hc => digit_not_space ?_)
  have h := natChars_all n
  simp only [List.all_eq_true] at h
  exact h c hc

theorem pyInt_natChars (n : Nat) : pyInt (natChars n) = some (n : Int) := by
  have hall := natChars_all n
  obtain ⟨d, ds, hds⟩ : ∃ d ds, natChars n = d :: ds := by
    cases h : natChars n with
    | nil => exact absurd h (natChars_ne_nil _)
    | cons d ds => exact ⟨d, ds, rfl⟩
  have hd : isDigitCh d = true := by
    rw [hds] at hall
    simp only [List.all_cons, Bool.and_eq_true] at hall
    exact hall.1
  unfold pyInt
  rw [stripChars_natChars, hds]
  simp only []
  rw [if_neg (isDigitCh_ne hd).2.2.2.2.1, if_neg (isDigitCh_ne_plus hd),
      if_pos (by rw [← hds]; exact hall)]
  rw [← hds, digitsVal_natChars]

end DebuggerMcp

namespace DebuggerMcp

theorem clHeaderLine_decomp :
    "Content-Length: ".toList = "Content-Length:".toList ++ [' '] := by decide

theorem clKey_decomp :
    "Content-Length:".toList = "Content-Length".toList ++ [':'] := by decide

theorem cr_not_mem_clLine (n : Nat) :
    '\r' ∉ "Content-Length: ".toList ++ natChars n := by
  intro hm
  rcases List.mem_append.mp hm with h | h
  · revert h; decide
  · have hall := natChars_all n
    simp only [List.all_eq_true] at hall
    exact isDigitCh_ne_cr (hall _ h) rfl

/-- Round trip of the standalone tester's transport. -/
theorem sa_write_read_roundtrip (m : Json) (rest : List Char)
    (hm : Json.valid m = true) :
    readMessageSA (sendFrame m ++ rest) = .msg m rest := by
  have hN : utf8Len (Json.dumps m) = (Json.dumps m).length :=
    utf8Len_ascii _ (dumps_ascii m hm)
  have heq : sendFrame m ++ rest
      = ("Content-Length: ".toList ++ natChars (utf8Len (Json.dumps m)))
          ++ '\r' :: '\n' :: '\r' :: '\n' :: (Json.dumps m ++ rest) := by
    simp [sendFrame, contentLengthHeader]
  unfold readMessageSA
  rw [heq, splitFrame_line _ _ (cr_not_mem_clLine _)]
  simp only []
  rw [splitCRLF_line _ (cr_not_mem_clLine _)]
  have hline : "Content-Length: ".toList ++ natChars (utf8Len (Json.dumps m))
      = "Content-Length:".toList ++ (' ' :: natChars (utf8Len (Json.dumps m))) := by
    rw [clHeaderLine_decomp]
    simp
  rw [findCL, hline, if_pos (leadsWith_append _ _)]
  simp only []
  have hsplit : splitColon ("Content-Length:".toList
        ++ (' ' :: natChars (utf8Len (Json.dumps m))))
      = ["Content-Length".toList, ' ' :: natChars (utf8Len (Json.dumps m))] := by
    rw [clKey_decomp, List.append_assoc, List.singleton_append]
    refine splitColon_split _ _ (by decide) ?_
    intro hm2
    rcases List.mem_cons.mp hm2 with h | h
    · revert h; decide
    · have hall := natChars_all (utf8Len (Json.dumps m))
      simp only [List.all_eq_true] at hall
      exact isDigitCh_ne_colon (hall _ h) rfl
  rw [hsplit]
  simp only [List.get?]
  rw [stripChars_space_cons, stripChars_natChars, pyInt_natChars]
  simp only []
  rw [if_neg (by omega), if_neg (by omega)]
  have htn : ((utf8Len (Json.dumps m) : Int)).toNat = utf8Len (Json.dumps m) := by
    omega
  rw [htn, hN, List.take_left, List.drop_left, loads_dumps m hm]

end DebuggerMcp

namespace DebuggerMcp

example : readMessageCSInner ['A', ':', ' ', 'b', '\r', '\n', '\r', '\n']
    = .error .jsonDecodeError := by
  simp [readMessageCSInner, csHeaders, pyReadLine, stripChars, splitColon1,
        dictSet, dictGet, isSpaceCh, loads, parseJ]

end DebuggerMcp

namespace DebuggerMcp

theorem header_ascii (n : Nat) :
    ("Content-Length: ".toList ++ natChars n ++ ['\r', '\n', '\r', '\n']).all
      asciiCh = true := by
  simp [List.all_append, natChars_ascii n, asciiCh]

theorem cs_sa_frames_agree (m : Json) (hm : Json.valid m = true) :
    sendFrameCS m = sendFrame m := by
  unfold sendFrameCS sendFrame
  rw [utf8Len_ascii _ (dumps_ascii m hm)]

theorem sa_missing_cl (l rest : List Char) (hcr : '\r' ∉ l)
    (hlw : leadsWith "Content-Length:".toList l = false) :
    readMessageSA (l ++ '\r' :: '\n' :: '\r' :: '\n' :: rest) = .exn .valueError := by
  unfold readMessageSA
  rw [splitFrame_line _ _ hcr]
  simp only []
  rw [splitCRLF_line _ hcr]
  have hlw' : leadsWith ['C', 'o', 'n', 't', 'e', 'n', 't', '-',
      'L', 'e', 'n', 'g', 't', 'h', ':'] l = false := hlw
  simp [findCL, hlw', leadsWith]

theorem sa_nonnumeric_cl (v rest : List Char) (hcr : '\r' ∉ v) (hcolon : ':' ∉ v)
    (hpi : pyInt (stripChars v) = none) :
    readMessageSA (("Content-Length:".toList ++ v)
        ++ '\r' :: '\n' :: '\r' :: '\n' :: rest) = .exn .valueError := by
  have hcr' : '\r' ∉ "Content-Length:".toList ++ v := by
    intro hm
    rcases List.mem_append.mp hm with h | h
    · revert h; decide
    · exact hcr h
  unfold readMessageSA
  rw [splitFrame_line _ _ hcr']
  simp only []
  rw [splitCRLF_line _ hcr']
  rw [findCL, if_pos (leadsWith_append _ _)]
  simp only []
  have hsplit : splitColon ("Content-Length:".toList ++ v)
      = ["Content-Length".toList, v] := by
    rw [clKey_decomp, List.append_assoc, List.singleton_append]
    exact splitColon_split _ _ (by decide) hcolon
  rw [hsplit]
  simp only [List.get?]
  rw [hpi]

end DebuggerMcp

/-! ## Dispatcher (modelled from the spec)

The claims about `await_response` timeouts, exactly-once fulfilment and
`ProtocolViolation` reporting concern the Dispatcher of spec §4.3.  That
component's implementation is the production core of this repository,
which is not among the Python scripts (`wait_for_response` in
`scripts/test_dap_standalone.py` only polls a dict and has no pending
map); it is therefore modelled here from the specification's words. -/

namespace DebuggerMcp

/-- Modelled from the spec: a DAP `Response` as the Dispatcher correlates
it — `request_seq` back-references the request, plus its payload. -/
structure DResponse where
  request_seq : Nat
  success : Bool
  body : Json

/-- Modelled from the spec: an inbound message seen by the reader loop. -/
inductive DMsg where
  | resp (r : DResponse)
  | ev (name : String) (body : Json)

/-- Modelled from the spec: the Session state the Dispatcher owns — the
monotonic sequence counter and the pending-request map (the set of issued
`seq`s whose waiters are still live; at most one entry per `seq`). -/
structure DispState where
  nextSeq : Nat
  pending : List Nat

/-- Modelled from the spec: what one reader-loop step (or a timeout
firing) produces for its observer. -/
inductive DOutcome where
  | fulfilled (seq : Nat) (r : DResponse)
  | protocolViolation (r : DResponse)
  | eventDelivered (name : String) (body : Json)
  | timedOut (seq : Nat)

/-- Modelled from the spec: an occurrence the Dispatcher reacts to — an
inbound frame, or the expiry of `await_response`'s deadline for `seq`
(no response for `seq` arrived within the configured deadline). -/
inductive DEvent where
  | recv (m : DMsg)
  | timeoutFire (seq : Nat)

/-- Modelled from the spec: `send_request` allocates the next sequence
number, registers a PendingRequest for it, and returns the `seq`. -/
def sendRequest (s : DispState) : Nat × DispState :=
  (s.nextSeq + 1, { nextSeq := s.nextSeq + 1, pending := (s.nextSeq + 1) :: s.pending })

/-- Modelled from the spec: §4.3 — on a `Response`, look up `request_seq`
in the pending map — if found, fulfil the waiter and remove the entry;
if not, surface a protocol-violation diagnostic without crashing the
loop.  On an `Event`, deliver it.  On `await_response` timeout, remove
the pending entry and fail the waiter with `Timeout`. -/
def dispStep (s : DispState) : DEvent → DispState × DOutcome
  | .recv (.resp r) =>
    if r.request_seq ∈ s.pending then
      ({ s with pending := s.pending.filter (· ≠ r.request_seq) },
       .fulfilled r.request_seq r)
    else (s, .protocolViolation r)
  | .recv (.ev n b) => (s, .eventDelivered n b)
  | .timeoutFire seq =>
    ({ s with pending := s.pending.filter (· ≠ seq) }, .timedOut seq)

/-- Modelled from the spec: the reader loop, processing occurrences in
order and never stopping on a protocol violation. -/
def dispRun (s : DispState) : List DEvent → DispState × List DOutcome
  | [] => (s, [])
  | e :: es =>
    let p := dispStep s e
    let q := dispRun p.1 es
    (q.1, p.2 :: q.2)

/-- Does this outcome fulfil the waiter for `seq`? -/
def isFulfilledFor (seq : Nat) : DOutcome → Bool
  | .fulfilled s _ => s = seq
  | _ => false

theorem dispStep_pending_subset (s : DispState) (e : DEvent) :
    ∀ x, x ∈ (dispStep s e).1.pending → x ∈ s.pending := by
  intro x hx
  cases e with
  | recv m =>
    cases m with
    | resp r =>
      simp only [dispStep] at hx
      split at hx
      · exact (List.mem_filter.mp hx).1
      · exact hx
    | ev n b => exact hx
  | timeoutFire seq =>
    simp only [dispStep] at hx
    exact (List.mem_filter.mp hx).1

theorem dispRun_pending_subset (s : DispState) (es : List DEvent) :
    ∀ x, x ∈ (dispRun s es).1.pending → x ∈ s.pending := by
  induction es generalizing s with
  | nil => intro x hx; exact hx
  | cons e es ih =>
    intro x hx
    exact dispStep_pending_subset s e x (ih _ x hx)

theorem dispRun_no_fulfil_of_not_pending (s : DispState) (seq : Nat)
    (h : seq ∉ s.pending) (es : List DEvent) :
    ∀ o ∈ (dispRun s es).2, isFulfilledFor seq o = false := by
  induction es generalizing s with
  | nil => intro o ho; simp [dispRun] at ho
  | cons e es ih =>
    intro o ho
    simp only [dispRun, List.mem_cons] at ho
    have hstep : seq ∉ (dispStep s e).1.pending :=
      fun hx => h (dispStep_pending_subset s e seq hx)
    rcases ho with ho | ho
    · subst ho
      cases e with
      | recv m =>
        cases m with
        | resp r =>
          simp only [dispStep]
          split
          · rename_i hin
            simp only [isFulfilledFor, decide_eq_false_iff_not]
            intro hrs
            exact h (hrs ▸ hin)
          · simp [isFulfilledFor]
        | ev n b => simp [dispStep, isFulfilledFor]
      | timeoutFire sq => simp [dispStep, isFulfilledFor]
    · exact ih _ hstep o ho

theorem timeout_removes_pending (s : DispState) (seq : Nat) :
    (dispStep s (.timeoutFire seq)).2 = .timedOut seq
    ∧ seq ∉ (dispStep s (.timeoutFire seq)).1.pending := by
  refine ⟨rfl, ?_⟩
  simp only [dispStep]
  intro hx
  have := (List.mem_filter.mp hx).2
  simp at this

end DebuggerMcp

namespace DebuggerMcp

theorem dispRun_append (s : DispState) (xs ys : List DEvent) :
    dispRun s (xs ++ ys)
      = ((dispRun (dispRun s xs).1 ys).1,
         (dispRun s xs).2 ++ (dispRun (dispRun s xs).1 ys).2) := by
  induction xs generalizing s with
  | nil => simp [dispRun]
  | cons e es ih => simp [dispRun, ih]

theorem dispStep_no_fulfil (s : DispState) (seq : Nat) (e : DEvent)
    (he : ∀ r', e = .recv (.resp r') → r'.request_seq ≠ seq) :
    isFulfilledFor seq (dispStep s e).2 = false := by
  cases e with
  | recv m =>
    cases m with
    | resp r =>
      have := he r rfl
      simp only [dispStep]
      split <;> simp [isFulfilledFor, this]
    | ev n b => simp [dispStep, isFulfilledFor]
  | timeoutFire sq => simp [dispStep, isFulfilledFor]

theorem dispStep_pending_preserved (s : DispState) (seq : Nat) (e : DEvent)
    (hp : seq ∈ s.pending)
    (he : (∀ r', e = .recv (.resp r') → r'.request_seq ≠ seq) ∧ e ≠ .timeoutFire seq) :
    seq ∈ (dispStep s e).1.pending := by
  cases e with
  | recv m =>
    cases m with
    | resp r =>
      have hne := he.1 r rfl
      simp only [dispStep]
      split
      · exact List.mem_filter.mpr ⟨hp, by simpa using fun h => hne h.symm⟩
      · exact hp
    | ev n b => exact hp
  | timeoutFire sq =>
    have hne : sq ≠ seq := fun h => he.2 (by rw [h])
    simp only [dispStep]
    exact List.mem_filter.mpr ⟨hp, by simpa using fun h => hne h.symm⟩

theorem dispRun_pending_preserved (s : DispState) (seq : Nat) (es : List DEvent)
    (hp : seq ∈ s.pending)
    (he : ∀ e ∈ es, (∀ r', e = .recv (.resp r') → r'.request_seq ≠ seq)
            ∧ e ≠ .timeoutFire seq) :
    seq ∈ (dispRun s es).1.pending := by
  induction es generalizing s with
  | nil => exact hp
  | cons e es ih =>
    exact ih _ (dispStep_pending_preserved s seq e hp
      (he e (List.mem_cons_self _ _)))
      (fun e' he' => he e' (List.mem_cons_of_mem _ he'))

theorem dispRun_no_fulfil_of_no_resp (s : DispState) (seq : Nat) (es : List DEvent)
    (he : ∀ e ∈ es, ∀ r', e = .recv (.resp r') → r'.request_seq ≠ seq) :
    ∀ o ∈ (dispRun s es).2, isFulfilledFor seq o = false := by
  induction es generalizing s with
  | nil => intro o ho; simp [dispRun] at ho
  | cons e es ih =>
    intro o ho
    simp only [dispRun, List.mem_cons] at ho
    rcases ho with ho | ho
    · subst ho
      exact dispStep_no_fulfil s seq e (he e (List.mem_cons_self _ _))
    · exact ih _ (fun e' he' => he e' (List.mem_cons_of_mem _ he')) o ho

end DebuggerMcp

/-! ## The standalone tester: reader loop and handshake

`DAPTester` of `scripts/test_dap_standalone.py`, at parsed-message
granularity: `_read_messages` (lines 74-104) processes one message at a
time — storing responses under the message's `request_seq` value, appending
events, and reacting to the `initialized` event by calling
`send_configuration_done` (lines 186-195), whose frame bytes are written
to the adapter's stdin before the loop reads its next message. -/

namespace DebuggerMcp

mutual

/-- Structural equality of JSON values (Python `==` on parsed messages,
used for dict keys). -/
def Json.beq : Json → Json → Bool
  | .null, .null => true
  | .bool a, .bool b => a == b
  | .num a, .num b => a == b
  | .str a, .str b => a == b
  | .arr a, .arr b => beqL a b
  | .obj a, .obj b => beqF a b
  | _, _ => false

/-- Equality of JSON array element lists. -/
def beqL : List Json → List Json → Bool
  | [], [] => true
  | a :: as', b :: bs => a.beq b && beqL as' bs
  | _, _ => false

/-- Equality of JSON object field lists. -/
def beqF : List (String × Json) → List (String × Json) → Bool
  | [], [] => true
  | (ka, va) :: as', (kb, vb) :: bs => ka == kb && va.beq vb && beqF as' bs
  | _, _ => false

end

/-- Lookup in a JSON object's fields (Python dict `get` on string keys). -/
def lookupF : List (String × Json) → String → Option Json
  | [], _ => none
  | (k', v) :: fs, k => if k' = k then some v else lookupF fs k

/-- Python's `message.get(k)` on a parsed message: `none` is `None`. -/
def jget : Json → String → Option Json
  | .obj fields, k => lookupF fields k
  | _, _ => none

/-- Python truthiness of a `get` result, as in the success checks of `main`. -/
def jTruthy : Option Json → Bool
  | some (.bool b) => b
  | some .null => false
  | some (.num n) => n ≠ 0
  | some (.str s) => s.length ≠ 0
  | some (.arr l) => l.length ≠ 0
  | some (.obj l) => l.length ≠ 0
  | none => false

/-- Equality of `received_responses` dict keys (which are
the messages' `request_seq` values — possibly `None`). -/
def jKeyBeq : Option Json → Option Json → Bool
  | none, none => true
  | some a, some b => a.beq b
  | _, _ => false

/-- Python `self.received_responses[key] = message`. -/
def rrSet (d : List (Option Json × Json)) (k : Option Json) (v : Json) :
    List (Option Json × Json) :=
  match d with
  | [] => [(k, v)]
  | (k', v') :: d' => if jKeyBeq k' k then (k', v) :: d' else (k', v') :: rrSet d' k v

/-- Python `self.received_responses[key]` and `key in self.received_responses`. -/
def rrGet (d : List (Option Json × Json)) (k : Option Json) : Option Json :=
  match d with
  | [] => none
  | (k', v') :: d' => if jKeyBeq k' k then some v' else rrGet d' k

/-- One observable action on the adapter's standard streams: a request
frame written to its stdin, or a message read from its stdout. -/
inductive WireAct where
  | sent (m : Json)
  | received (m : Json)

/-- The `DAPTester` state the handshake touches: the sequence counter,
the response dict, the event list, and the bytes written to the
adapter's stdin so far. -/
structure SAState where
  seq : Nat
  received_responses : List (Option Json × Json)
  received_events : List Json
  written : List Char

/-- Request built by `send_configuration_done` (lines 189-193). -/
def mkConfigDoneReq (seq : Nat) : Json :=
  .obj [("type", .str "request"), ("seq", .num seq),
        ("command", .str "configurationDone")]

/-- Request built by `send_initialize` (lines 146-162). -/
def mkInitializeReq (seq : Nat) : Json :=
  .obj [("type", .str "request"), ("seq", .num seq),
        ("command", .str "initialize"),
        ("arguments", .obj
          [("clientID", .str "dap-standalone-test"),
           ("clientName", .str "DAP Standalone Tester"),
           ("adapterID", .str "debugpy"),
           ("pathFormat", .str "path"),
           ("linesStartAt1", .bool true),
           ("columnsStartAt1", .bool true),
           ("supportsVariableType", .bool true),
           ("supportsVariablePaging", .bool true),
           ("supportsRunInTerminalRequest", .bool false),
           ("locale", .str "en-US")])]

/-- Request built by `send_launch` (lines 169-182); `cwd` stands for
`str(Path(program).parent)`. -/
def mkLaunchReq (seq : Nat) (program cwd : String) : Json :=
  .obj [("type", .str "request"), ("seq", .num seq),
        ("command", .str "launch"),
        ("arguments", .obj
          [("request", .str "launch"),
           ("type", .str "python"),
           ("program", .str program),
           ("args", .arr []),
           ("console", .str "internalConsole"),
           ("stopOnEntry", .bool false),
           ("cwd", .str cwd)])]

/-- Method `_read_messages` handling of one parsed message (lines 78-99):
responses are stored under the message's `request_seq` value; events are
appended, and the `initialized` event triggers `send_configuration_done`
— `self.seq += 1`, build the request, write its frame — from inside the
loop.  Returns the new state and the wire actions in order. -/
def saProcessMsg (st : SAState) (m : Json) : SAState × List WireAct :=
  match jget m "type" with
  | some (.str t) =>
    if t = "response" then
      ({ st with received_responses := rrSet st.received_responses (jget m "request_seq") m },
       [.received m])
    else if t = "event" then
      let st' := { st with received_events := st.received_events ++ [m] }
      match jget m "event" with
      | some (.str n) =>
        if n = "initialized" then
          let req := mkConfigDoneReq (st'.seq + 1)
          ({ st' with seq := st'.seq + 1, written := st'.written ++ sendFrame req },
           [.received m, .sent req])
        else (st', [.received m])
      | _ => (st', [.received m])
    else (st, [.received m])
  | _ => (st, [.received m])

/-- The reader loop over a list of inbound messages. -/
def saReadLoop (st : SAState) : List Json → SAState × List WireAct
  | [] => (st, [])
  | m :: ms =>
    let p := saProcessMsg st m
    let q := saReadLoop p.1 ms
    (q.1, p.2 ++ q.2)

theorem saReadLoop_append (st : SAState) (xs ys : List Json) :
    saReadLoop st (xs ++ ys)
      = ((saReadLoop (saReadLoop st xs).1 ys).1,
         (saReadLoop st xs).2 ++ (saReadLoop (saReadLoop st xs).1 ys).2) := by
  induction xs generalizing st with
  | nil => simp [saReadLoop]
  | cons m ms ih => simp [saReadLoop, ih]

end DebuggerMcp

/-! ## Composed handshake runs

An adapter double reacts to each request the client writes by appending
messages to its stdout.  `pump` is the reader thread draining that
output; requests sent from inside the event handler are fed back to the
double, whose reactions join the back of the output queue.  `runMain`
mirrors `main()` of `scripts/test_dap_standalone.py`, steps 2-4 (lines
244-277): initialize, wait; launch; wait for the launch response (the
`initialized` event being handled by the reader thread meanwhile). -/

namespace DebuggerMcp

/-- An adapter double: its reaction (the messages it writes to stdout)
to each kind of request, keyed by the request's `command`. -/
structure AdapterDouble where
  onInitialize : Json → List Json
  onLaunch : Json → List Json
  onConfigurationDone : Json → List Json
  onOther : Json → List Json

/-- Dispatch a request the client wrote to the double's reaction. -/
def reactTo (d : AdapterDouble) (req : Json) : List Json :=
  match jget req "command" with
  | some (.str c) =>
    if c = "initialize" then d.onInitialize req
    else if c = "launch" then d.onLaunch req
    else if c = "configurationDone" then d.onConfigurationDone req
    else d.onOther req
  | _ => d.onOther req

/-- The requests among a list of wire actions. -/
def sentReqs (acts : List WireAct) : List Json :=
  acts.filterMap fun a =>
    match a with
    | .sent r => some r
    | .received _ => none

/-- The reader thread draining the adapter's pending output; a request
sent from inside a handler reaches the double, whose reaction joins the
back of the queue.  Fuel only bounds the exchange length. -/
def pump (d : AdapterDouble) : Nat → SAState → List Json → SAState × List WireAct
  | 0, st, _ => (st, [])
  | _ + 1, st, [] => (st, [])
  | fuel + 1, st, m :: queue =>
    let p := saProcessMsg st m
    let q := pump d fuel p.1 (queue ++ ((sentReqs p.2).map (reactTo d)).flatten)
    (q.1, p.2 ++ q.2)

/-- Result of the handshake portion of `main()`. -/
inductive HsResult where
  | ready
  | failedInit (msg : Option Json)
  | failedLaunch (msg : Option Json)
  | timeout

/-- Function `main` steps 2-4 of `scripts/test_dap_standalone.py` (lines
244-277): send `initialize` (seq 1), wait for its response, check
`success`; send `launch`, wait for its response (the reader thread
handles the `initialized` event and sends `configurationDone` in
between), check `success`.  `.ready` is the successful completion of
the handshake. -/
def runMain (d : AdapterDouble) (fuel : Nat) (program cwd : String) :
    HsResult × SAState × List WireAct :=
  let st0 : SAState := ⟨0, [], [], []⟩
  let req1 := mkInitializeReq 1
  let st1 : SAState := { st0 with seq := 1, written := st0.written ++ sendFrame req1 }
  let p1 := pump d fuel st1 (reactTo d req1)
  let tr1 := .sent req1 :: p1.2
  match rrGet p1.1.received_responses (some (.num 1)) with
  | none => (.timeout, p1.1, tr1)
  | some resp1 =>
    if jTruthy (jget resp1 "success") then
      let req2 := mkLaunchReq (p1.1.seq + 1) program cwd
      let st2 : SAState := { p1.1 with seq := p1.1.seq + 1, written := p1.1.written ++ sendFrame req2 }
      let p2 := pump d fuel st2 (reactTo d req2)
      let tr2 := tr1 ++ .sent req2 :: p2.2
      match rrGet p2.1.received_responses (some (.num (p1.1.seq + 1))) with
      | none => (.timeout, p2.1, tr2)
      | some resp2 =>
        if jTruthy (jget resp2 "success") then (.ready, p2.1, tr2)
        else (.failedLaunch (jget resp2 "message"), p2.1, tr2)
    else (.failedInit (jget resp1 "message"), p1.1, tr1)

end DebuggerMcp

namespace DebuggerMcp

theorem jget_mkInitializeReq_command (seq : Nat) :
    jget (mkInitializeReq seq) "command" = some (.str "initialize") := rfl

theorem jget_mkLaunchReq_command (seq : Nat) (program cwd : String) :
    jget (mkLaunchReq seq program cwd) "command" = some (.str "launch") := rfl

theorem jget_mkConfigDoneReq_command (seq : Nat) :
    jget (mkConfigDoneReq seq) "command" = some (.str "configurationDone") := rfl

theorem runMain_handshake_trace (d : AdapterDouble) (program cwd : String)
    (resp1 evInit cfgResp launchResp : Json)
    (h1 : d.onInitialize (mkInitializeReq 1) = [resp1])
    (h1t : jget resp1 "type" = some (.str "response"))
    (h1s : jget resp1 "request_seq" = some (.num 1))
    (h1ok : jget resp1 "success" = some (.bool true))
    (h2 : d.onLaunch (mkLaunchReq 2 program cwd) = [evInit])
    (h2t : jget evInit "type" = some (.str "event"))
    (h2e : jget evInit "event" = some (.str "initialized"))
    (h3 : d.onConfigurationDone (mkConfigDoneReq 3) = [cfgResp, launchResp])
    (h3t : jget cfgResp "type" = some (.str "response"))
    (h3s : jget cfgResp "request_seq" = some (.num 3))
    (h4t : jget launchResp "type" = some (.str "response"))
    (h4s : jget launchResp "request_seq" = some (.num 2))
    (h4ok : jget launchResp "success" = some (.bool true)) :
    (runMain d 9 program cwd).1 = .ready
    ∧ (runMain d 9 program cwd).2.2
        = [.sent (mkInitializeReq 1), .received resp1,
           .sent (mkLaunchReq 2 program cwd), .received evInit,
           .sent (mkConfigDoneReq 3), .received cfgResp, .received launchResp] := by
  simp [runMain, pump, saProcessMsg, reactTo, sentReqs, rrSet, rrGet, jKeyBeq,
        Json.beq, jTruthy,
        jget_mkInitializeReq_command, jget_mkLaunchReq_command,
        jget_mkConfigDoneReq_command,
        h1, h1t, h1s, h1ok, h2, h2t, h2e, h3, h3t, h3s, h4t, h4s, h4ok]

end DebuggerMcp

namespace DebuggerMcp

theorem saProcessMsg_initialized (st : SAState) (m : Json)
    (ht : jget m "type" = some (.str "event"))
    (he : jget m "event" = some (.str "initialized")) :
    saProcessMsg st m
      = ({ st with received_events := st.received_events ++ [m],
                   seq := st.seq + 1,
                   written := st.written ++ sendFrame (mkConfigDoneReq (st.seq + 1)) },
         [.received m, .sent (mkConfigDoneReq (st.seq + 1))]) := by
  simp [saProcessMsg, ht, he]

theorem runMain_launch_immediate (d : AdapterDouble) (program cwd : String)
    (resp1 : Json)
    (h1 : d.onInitialize (mkInitializeReq 1) = [resp1])
    (h1t : jget resp1 "type" = some (.str "response"))
    (h1s : jget resp1 "request_seq" = some (.num 1))
    (h1ok : jget resp1 "success" = some (.bool true)) :
    ∃ tr, (runMain d 9 program cwd).2.2
        = .sent (mkInitializeReq 1) :: .received resp1
            :: .sent (mkLaunchReq 2 program cwd) :: tr := by
  simp [runMain, pump, saProcessMsg, reactTo, sentReqs, rrSet, rrGet, jKeyBeq,
        Json.beq, jTruthy,
        jget_mkInitializeReq_command, jget_mkLaunchReq_command,
        jget_mkConfigDoneReq_command, h1, h1t, h1s, h1ok]
  split
  · exact ⟨_, rfl⟩
  · split
    · exact ⟨_, rfl⟩
    · exact ⟨_, rfl⟩

end DebuggerMcp

namespace DebuggerMcp

/-! ## The `test_correct_sequence.py` handshake

The module body (lines 42-94): initialize, read until the initialize
response; *wait for the `initialized` event*; send `configurationDone`
and read its response; only then send `launch`.  Reads are modelled as
popping the adapter double's pending output, each bounded `for` loop
reading until its condition matches (or the queue runs dry, the `None`
/ timeout path). -/

/-- Python test: the message type equals response and its command equals `c`. -/
def isRespCmd (c : String) (m : Json) : Bool :=
  (match jget m "type" with
   | some (.str t) => t == "response"
   | _ => false)
  && (match jget m "command" with
      | some (.str c') => c' == c
      | _ => false)

/-- Python test: the message type equals event and its event name equals `n`. -/
def isEventNamed (n : String) (m : Json) : Bool :=
  (match jget m "type" with
   | some (.str t) => t == "event"
   | _ => false)
  && (match jget m "event" with
      | some (.str n') => n' == n
      | _ => false)

/-- A bounded `for _ in range(k): msg = read_message(...)` loop that
stops on the first message satisfying `pred`: the messages read, in
order, and the remaining queue. -/
def csReadUntil : Nat → (Json → Bool) → List Json → List Json × List Json
  | 0, _, q => ([], q)
  | _ + 1, _, [] => ([], [])
  | k + 1, pred, m :: ms =>
    if pred m then ([m], ms)
    else
      let r := csReadUntil k pred ms
      (m :: r.1, r.2)

/-- The `initialize` request of `test_correct_sequence.py` (lines 47-49). -/
def csInitializeReq : Json :=
  .obj [("seq", .num 1), ("type", .str "request"), ("command", .str "initialize"),
        ("arguments", .obj
          [("clientID", .str "test"), ("adapterID", .str "debugpy"),
           ("linesStartAt1", .bool true), ("columnsStartAt1", .bool true)])]

/-- The `configurationDone` request (line 68) — sent with seq 2,
before `launch`. -/
def csConfigDoneReq : Json :=
  .obj [("seq", .num 2), ("type", .str "request"),
        ("command", .str "configurationDone"), ("arguments", .obj [])]

/-- The `launch` request (lines 78-81), sent last with seq 3. -/
def csLaunchReq (program : String) : Json :=
  .obj [("seq", .num 3), ("type", .str "request"), ("command", .str "launch"),
        ("arguments", .obj
          [("request", .str "launch"), ("type", .str "python"),
           ("program", .str program), ("console", .str "internalConsole"),
           ("stopOnEntry", .bool false)])]

/-- The module body of `test_correct_sequence.py` (lines 42-94) against
an adapter double: the wire actions in order. -/
def runCorrectSequence (d : AdapterDouble) (program : String) : List WireAct :=
  let req1 := csInitializeReq
  let r1 := csReadUntil 5 (isRespCmd "initialize") (reactTo d req1)
  let r2 := csReadUntil 5 (isEventNamed "initialized") r1.2
  let req2 := csConfigDoneReq
  let r3 := csReadUntil 5 (isRespCmd "configurationDone") (r2.2 ++ reactTo d req2)
  let req3 := csLaunchReq program
  let r4 := csReadUntil 10 (isRespCmd "launch") (r3.2 ++ reactTo d req3)
  .sent req1 :: (r1.1.map .received
    ++ r2.1.map .received
    ++ .sent req2 :: (r3.1.map .received
    ++ .sent req3 :: r4.1.map .received))

/-- A successful `initialize` response with `request_seq` 1. -/
def csInitResp : Json :=
  .obj [("type", .str "response"), ("request_seq", .num 1),
        ("command", .str "initialize"), ("success", .bool true)]

/-- The `initialized` event. -/
def csInitializedEv : Json :=
  .obj [("type", .str "event"), ("event", .str "initialized")]

/-- A successful `configurationDone` response with `request_seq` 2. -/
def csCfgDoneResp : Json :=
  .obj [("type", .str "response"), ("request_seq", .num 2),
        ("command", .str "configurationDone"), ("success", .bool true)]

/-- A successful `launch` response with `request_seq` 3. -/
def csLaunchResp : Json :=
  .obj [("type", .str "response"), ("request_seq", .num 3),
        ("command", .str "launch"), ("success", .bool true)]

/-- An adapter double that answers `initialize` with a successful
response followed by the `initialized` event, and answers the other
requests normally. -/
def csDouble : AdapterDouble where
  onInitialize := fun _ => [csInitResp, csInitializedEv]
  onLaunch := fun _ => [csLaunchResp]
  onConfigurationDone := fun _ => [csCfgDoneResp]
  onOther := fun _ => []

end DebuggerMcp

/-! ## Round trip of the readline-based transport -/

namespace DebuggerMcp

theorem pyReadLine_line (l r : List Char) (hl : '\n' ∉ l) :
    pyReadLine (l ++ '\n' :: r) = (l ++ ['\n'], r) := by
  induction l with
  | nil => simp [pyReadLine]
  | cons c cs ih =>
    have hc : ¬ (c = '\n') := fun hh => hl (by rw [hh]; exact List.mem_cons_self _ _)
    simp only [List.cons_append, pyReadLine, if_neg hc, List.append_eq]
    rw [ih (fun hm => hl (List.mem_cons_of_mem _ hm))]

theorem dropWhile_cons_nospace (c : Char) (t : List Char) (hc : isSpaceCh c = false) :
    List.dropWhile isSpaceCh (c :: t) = c :: t := by
  rw [List.dropWhile_cons, if_neg]
  rw [hc]
  simp

theorem splitColon1_split (a b : List Char) (ha : ':' ∉ a) :
    splitColon1 (a ++ ':' :: b) = (a, b) := by
  induction a with
  | nil => simp [splitColon1]
  | cons c cs ih =>
    have hc : ¬ (c = ':') := fun hh => ha (by rw [hh]; exact List.mem_cons_self _ _)
    simp only [List.cons_append, splitColon1, if_neg hc, List.append_eq]
    rw [ih (fun hm => ha (List.mem_cons_of_mem _ hm))]

/-- Stripping the composed header line: a non-space head, an all-digit
tail, and the trailing CRLF. -/
theorem stripChars_clLine (n : Nat) :
    stripChars (("Content-Length: ".toList ++ natChars n) ++ ['\r', '\n'])
      = "Content-Length: ".toList ++ natChars n := by
  obtain ⟨d, ds, hds⟩ : ∃ d ds, natChars n = d :: ds := by
    cases h : natChars n with
    | nil => exact absurd h (natChars_ne_nil _)
    | cons d ds => exact ⟨d, ds, rfl⟩
  have halld := natChars_all n
  unfold stripChars
  have h1 : List.dropWhile isSpaceCh
      (("Content-Length: ".toList ++ natChars n) ++ ['\r', '\n'])
      = ("Content-Length: ".toList ++ natChars n) ++ ['\r', '\n'] := by
    have : ("Content-Length: ".toList ++ natChars n) ++ ['\r', '\n']
        = 'C' :: (("ontent-Length: ".toList ++ natChars n) ++ ['\r', '\n']) := by
      simp
    rw [this]
    exact dropWhile_cons_nospace _ _ (by decide)
  rw [h1]
  have h2 : ((("Content-Length: ".toList ++ natChars n) ++ ['\r', '\n']).reverse)
      = '\n' :: '\r' :: (natChars n).reverse ++ "Content-Length: ".toList.reverse := by
    simp
  rw [h2]
  have hd : isDigitCh d = true := by
    rw [hds] at halld
    simp only [List.all_cons, Bool.and_eq_true] at halld
    exact halld.1
  have h3 : List.dropWhile isSpaceCh
      ('\n' :: '\r' :: (natChars n).reverse ++ "Content-Length: ".toList.reverse)
      = (natChars n).reverse ++ "Content-Length: ".toList.reverse := by
    rw [hds]
    simp only [List.cons_append, List.dropWhile_cons]
    rw [if_pos (by decide), if_pos (by decide)]
    have : (d :: ds).reverse ++ "Content-Length: ".toList.reverse
        = ds.reverse ++ (d :: "Content-Length: ".toList.reverse) := by
      simp
    rw [this]
    have hall2 : ∀ c ∈ ds.reverse ++ (d :: "Content-Length: ".toList.reverse),
        c ∈ ds.reverse ++ (d :: "Content-Length: ".toList.reverse) := fun c hc => hc
    -- the head of this list is a digit or the start of the reversed literal
    cases hrev : ds.reverse with
    | nil =>
      simp only [List.nil_append, List.dropWhile_cons]
      rw [if_neg]
      rw [digit_not_space hd]
      simp
    | cons d2 t2 =>
      have hd2 : isDigitCh d2 = true := by
        have : d2 ∈ ds := by
          have : d2 ∈ ds.reverse := by rw [hrev]; exact List.mem_cons_self _ _
          exact List.mem_reverse.mp this
        rw [hds] at halld
        simp only [List.all_cons, Bool.and_eq_true, List.all_eq_true] at halld
        exact halld.2 d2 this
      simp only [List.cons_append, List.dropWhile_cons]
      rw [if_neg]
      rw [digit_not_space hd2]
      simp
  rw [h3]
  simp

theorem csHeaders_blank (r : List Char) (hs : List (List Char × List Char)) :
    csHeaders ('\r' :: '\n' :: r) hs = (hs, r) := by
  rw [csHeaders]
  simp [pyReadLine]

/-- The header loop on a non-blank line containing a colon: record the
stripped key/value pair and continue after the newline. -/
theorem csHeaders_kvLine (c : Char) (t r : List Char)
    (hs : List (List Char × List Char))
    (hnl : '\n' ∉ c :: t) (hc1 : c ≠ '\r') (hc2 : c ≠ '\n')
    (hcol : ':' ∈ c :: t) :
    csHeaders (c :: (t ++ '\n' :: r)) hs
      = csHeaders r (dictSet hs
          (stripChars (splitColon1 (stripChars (c :: t ++ ['\n']))).1)
          (stripChars (splitColon1 (stripChars (c :: t ++ ['\n']))).2)) := by
  have hpl : pyReadLine (c :: (t ++ '\n' :: r)) = (c :: t ++ ['\n'], r) := by
    have h := pyReadLine_line (c :: t) r hnl
    simpa using h
  have hb1 : ¬ (c :: t ++ ['\n'] = ['\r', '\n']) := by
    intro hh
    have h0 : c = '\r' := by
      have := congrArg (fun l => l.head?) hh
      simpa using this
    exact hc1 h0
  have hb2 : ¬ (c :: t ++ ['\n'] = ['\n']) := by
    intro hh
    have h0 : c = '\n' := by
      have := congrArg (fun l => l.head?) hh
      simpa using this
    exact hc2 h0
  have hcont : (c :: t ++ ['\n']).contains ':' = true := by
    have : ':' ∈ c :: t ++ ['\n'] := by
      rcases List.mem_cons.mp hcol with h | h
      · rw [← h]; exact List.mem_cons_self _ _
      · exact List.mem_cons_of_mem _ (List.mem_append_left _ h)
    simpa [List.contains] using this
  rw [csHeaders]
  simp only [hpl, hb1, hb2, hcont]
  simp

end DebuggerMcp

namespace DebuggerMcp

/-- Round trip of the `test_correct_sequence.py` transport pair:
`send_message` then `read_message` on the same stream reproduces the
message, consuming exactly the frame. -/
theorem cs_write_read_roundtrip (m : Json) (rest : List Char)
    (hm : Json.valid m = true) :
    readMessageCSInner (sendFrameCS m ++ rest) = .ok (m, rest) := by
  have hin : sendFrameCS m ++ rest
      = 'C' :: ((("ontent-Length: ".toList ++ natChars (Json.dumps m).length)
            ++ ['\r'])
          ++ '\n' :: ('\r' :: '\n' :: (Json.dumps m ++ rest))) := by
    simp [sendFrameCS, contentLengthHeader]
  have hnl : '\n' ∉ 'C' :: (("ontent-Length: ".toList
      ++ natChars (Json.dumps m).length) ++ ['\r']) := by
    intro hmem
    rcases List.mem_cons.mp hmem with h | h
    · revert h; decide
    · rcases List.mem_append.mp h with h' | h'
      · rcases List.mem_append.mp h' with h2 | h2
        · revert h2; decide
        · have hall := natChars_all (Json.dumps m).length
          simp only [List.all_eq_true] at hall
          have := hall _ h2
          revert this; decide
      · revert h'; decide
  have hcol : ':' ∈ 'C' :: (("ontent-Length: ".toList
      ++ natChars (Json.dumps m).length) ++ ['\r']) :=
    List.mem_cons_of_mem _ (List.mem_append_left _
      (List.mem_append_left _ (by decide)))
  unfold readMessageCSInner
  rw [hin, csHeaders_kvLine _ _ _ _ hnl (by decide) (by decide) hcol,
      csHeaders_blank]
  have hline : 'C' :: (("ontent-Length: ".toList
        ++ natChars (Json.dumps m).length) ++ ['\r']) ++ ['\n']
      = ("Content-Length: ".toList ++ natChars (Json.dumps m).length)
          ++ ['\r', '\n'] := by
    simp
  rw [hline, stripChars_clLine]
  have hsplit : splitColon1 ("Content-Length: ".toList
        ++ natChars (Json.dumps m).length)
      = ("Content-Length".toList, ' ' :: natChars (Json.dumps m).length) := by
    have hdec : "Content-Length: ".toList ++ natChars (Json.dumps m).length
        = "Content-Length".toList
            ++ ':' :: (' ' :: natChars (Json.dumps m).length) := by
      rw [clHeaderLine_decomp, clKey_decomp]
      simp
    rw [hdec]
    exact splitColon1_split _ _ (by decide)
  rw [hsplit]
  simp only []
  rw [stripChars_nospace "Content-Length".toList (by decide),
      stripChars_space_cons, stripChars_natChars]
  rw [dictSet]
  simp only [dictGet, if_true]
  rw [pyInt_natChars]
  simp only []
  rw [if_neg (by omega), if_neg (by omega)]
  have htn : (((Json.dumps m).length : Int)).toNat = (Json.dumps m).length := by
    omega
  rw [htn, List.take_left, List.drop_left, loads_dumps m hm]

end DebuggerMcp

/-! ## Claim theorems -/

namespace DebuggerMcp

/-- C10: for every integer `n`, `fizzbuzz n` is `"FizzBuzz"` when 15
divides `n`, `"Fizz"` when 3 divides `n` but 5 does not, `"Buzz"` when
5 divides `n` but 3 does not, and the decimal string of `n` otherwise. -/
theorem c10_fizzbuzz (n : Int) :
    (15 ∣ n → fizzbuzz n = "FizzBuzz")
    ∧ (3 ∣ n → ¬ (5 ∣ n) → fizzbuzz n = "Fizz")
    ∧ (5 ∣ n → ¬ (3 ∣ n) → fizzbuzz n = "Buzz")
    ∧ (¬ (3 ∣ n) → ¬ (5 ∣ n) → fizzbuzz n = toString n) := by
  unfold fizzbuzz
  refine ⟨fun h => ?_, fun h3 h5 => ?_, fun h5 h3 => ?_, fun h3 h5 => ?_⟩
  · rw [if_pos (by omega)]
  · rw [if_neg (by omega), if_pos (by omega)]
  · rw [if_neg (by omega), if_neg (by omega), if_pos (by omega)]
  · rw [if_neg (by omega), if_neg (by omega), if_neg (by omega)]

/-- Witness for C10 at `n = 15`, `n = 6`, `n = 10`, `n = 7`. -/
theorem c10_witness :
    fizzbuzz 15 = "FizzBuzz" ∧ fizzbuzz 6 = "Fizz"
    ∧ fizzbuzz 10 = "Buzz" ∧ fizzbuzz 7 = toString (7 : Int) :=
  ⟨(c10_fizzbuzz 15).1 (by decide),
   (c10_fizzbuzz 6).2.1 (by decide) (by decide),
   (c10_fizzbuzz 10).2.2.1 (by decide) (by decide),
   (c10_fizzbuzz 7).2.2.2 (by decide) (by decide)⟩

end DebuggerMcp

namespace DebuggerMcp

/-- C4: for every valid DAP message `m`, writing `m` and then reading
from the same stream yields `m` unchanged and consumes exactly the
bytes of `m`'s frame (the remainder `rest` is untouched) — both for the
standalone tester's pair (`_send_message` / `_read_message`) and for
the `test_correct_sequence.py` pair (`send_message` / `read_message`),
whose writer emits the identical frame. -/
theorem c4_write_read_roundtrip (m : Json) (rest : List Char)
    (hm : Json.valid m = true) :
    readMessageSA (sendFrame m ++ rest) = .msg m rest
    ∧ readMessageCSInner (sendFrameCS m ++ rest) = .ok (m, rest)
    ∧ sendFrameCS m = sendFrame m :=
  ⟨sa_write_read_roundtrip m rest hm, cs_write_read_roundtrip m rest hm,
   cs_sa_frames_agree m hm⟩

/-- Witness for C4 at a concrete message and a nonempty remainder. -/
theorem c4_witness :
    readMessageSA (sendFrame (.obj [("a", .num 1)]) ++ ['x'])
      = .msg (.obj [("a", .num 1)]) ['x']
    ∧ readMessageCSInner (sendFrameCS (.obj [("a", .num 1)]) ++ ['x'])
      = .ok (.obj [("a", .num 1)], ['x'])
    ∧ sendFrameCS (.obj [("a", .num 1)]) = sendFrame (.obj [("a", .num 1)]) :=
  c4_write_read_roundtrip (.obj [("a", .num 1)]) ['x']
    (by simp [Json.valid, validF, plainChar])

/-- C5: every frame written is the ASCII header line
`Content-Length: <N>` followed by the two-CRLF terminator and exactly
`N` body bytes with no trailing delimiter, where `N` is the byte length
of the UTF-8-encoded serialized body (equal, on the valid domain, to
the body's character count, which is what the
`test_correct_sequence.py` writer uses). -/
theorem c5_frame_shape (m : Json) (hm : Json.valid m = true) :
    ∃ N, sendFrame m
          = ("Content-Length: ".toList ++ natChars N ++ ['\r', '\n', '\r', '\n'])
              ++ Json.dumps m
      ∧ N = utf8Len (Json.dumps m)
      ∧ (Json.dumps m).length = N
      ∧ ("Content-Length: ".toList ++ natChars N ++ ['\r', '\n', '\r', '\n']).all
          asciiCh = true
      ∧ sendFrameCS m = sendFrame m :=
  ⟨utf8Len (Json.dumps m), rfl, rfl,
   (utf8Len_ascii _ (dumps_ascii m hm)).symm,
   header_ascii _, cs_sa_frames_agree m hm⟩

/-- Witness for C5 at a concrete message. -/
theorem c5_witness :
    ∃ N, sendFrame (.str "hi")
          = ("Content-Length: ".toList ++ natChars N ++ ['\r', '\n', '\r', '\n'])
              ++ Json.dumps (.str "hi")
      ∧ N = utf8Len (Json.dumps (.str "hi"))
      ∧ (Json.dumps (.str "hi")).length = N
      ∧ ("Content-Length: ".toList ++ natChars N ++ ['\r', '\n', '\r', '\n']).all
          asciiCh = true
      ∧ sendFrameCS (.str "hi") = sendFrame (.str "hi") :=
  c5_frame_shape (.str "hi") (by simp [Json.valid, plainChar])

end DebuggerMcp

namespace DebuggerMcp

/-- C6 counterexample: a frame whose header has no `Content-Length` key,
fed to `read_message` of `test_correct_sequence.py`.  The claim says the
read fails with a framing error (`ValueError`) rather than proceeding to
read a body; instead the code defaults the length to `0`, reads an empty
body, and the failure is the `json.JSONDecodeError` from decoding it. -/
theorem c6_counterexample :
    readMessageCSInner ['A', ':', ' ', 'b', '\r', '\n', '\r', '\n']
      = .error .jsonDecodeError
    ∧ readMessageCSInner ['A', ':', ' ', 'b', '\r', '\n', '\r', '\n']
      ≠ .error .valueError := by
  have h : readMessageCSInner ['A', ':', ' ', 'b', '\r', '\n', '\r', '\n']
      = .error .jsonDecodeError := by
    simp [readMessageCSInner, csHeaders, pyReadLine, stripChars, splitColon1,
          dictSet, dictGet, isSpaceCh, loads, parseJ]
  exact ⟨h, by rw [h]; simp⟩

/-- C6 amended: the standalone reader (`_read_message`) raises
`ValueError` without reading any body bytes, both when the header has no
`Content-Length` line and when its value is non-numeric; the
readline-based reader (`read_message` of `test_correct_sequence.py`)
raises `ValueError` before the body on a non-numeric value, but a
missing `Content-Length` key is defaulted to 0 and surfaces as a body
decode error rather than a framing error. -/
theorem c6_amended_header_errors :
    (∀ l rest, '\r' ∉ l → leadsWith "Content-Length:".toList l = false →
        readMessageSA (l ++ '\r' :: '\n' :: '\r' :: '\n' :: rest) = .exn .valueError)
    ∧ (∀ v rest, '\r' ∉ v → ':' ∉ v → pyInt (stripChars v) = none →
        readMessageSA (("Content-Length:".toList ++ v)
            ++ '\r' :: '\n' :: '\r' :: '\n' :: rest) = .exn .valueError)
    ∧ readMessageCSInner
        ['C', 'o', 'n', 't', 'e', 'n', 't', '-', 'L', 'e', 'n', 'g', 't', 'h',
         ':', ' ', 'a', 'b', 'c', '\r', '\n', '\r', '\n']
        = .error .valueError
    ∧ readMessageCSInner
        (['A', ':', ' ', 'b', '\r', '\n', '\r', '\n'] ++ ['\x7b', '\x7d'])
        = .error .jsonDecodeError := by
  refine ⟨sa_missing_cl, sa_nonnumeric_cl, ?_, ?_⟩ <;>
    simp [readMessageCSInner, csHeaders, pyReadLine, stripChars, splitColon1,
          dictSet, dictGet, isSpaceCh, loads, parseJ, pyInt, isDigitCh, digitsVal]

/-- Witness for C6: the standalone reader on concrete malformed headers. -/
theorem c6_witness :
    readMessageSA (['X'] ++ '\r' :: '\n' :: '\r' :: '\n' :: []) = .exn .valueError
    ∧ readMessageSA (("Content-Length:".toList ++ [' ', 'a', 'b'])
        ++ '\r' :: '\n' :: '\r' :: '\n' :: []) = .exn .valueError :=
  ⟨c6_amended_header_errors.1 ['X'] [] (by decide) (by decide),
   c6_amended_header_errors.2.1 [' ', 'a', 'b'] [] (by decide) (by decide)
     (by simp [pyInt, stripChars, isSpaceCh, isDigitCh, List.dropWhile])⟩

end DebuggerMcp

namespace DebuggerMcp

/-- C1: whenever the adapter double answers `initialize` with a
successful response, answers `launch` by first emitting the
`initialized` event (withholding the launch response), and answers
`configurationDone` normally (after which it also releases the launch
response), the standalone handshake completes — `main` reaches the
successful terminal outcome — and the `configurationDone` request is
written to the adapter's stdin strictly before the `launch` response is
read from its stdout. -/
theorem c1_handshake_ready_and_ordering (d : AdapterDouble) (program cwd : String)
    (resp1 evInit cfgResp launchResp : Json)
    (h1 : d.onInitialize (mkInitializeReq 1) = [resp1])
    (h1t : jget resp1 "type" = some (.str "response"))
    (h1s : jget resp1 "request_seq" = some (.num 1))
    (h1ok : jget resp1 "success" = some (.bool true))
    (h2 : d.onLaunch (mkLaunchReq 2 program cwd) = [evInit])
    (h2t : jget evInit "type" = some (.str "event"))
    (h2e : jget evInit "event" = some (.str "initialized"))
    (h3 : d.onConfigurationDone (mkConfigDoneReq 3) = [cfgResp, launchResp])
    (h3t : jget cfgResp "type" = some (.str "response"))
    (h3s : jget cfgResp "request_seq" = some (.num 3))
    (h4t : jget launchResp "type" = some (.str "response"))
    (h4s : jget launchResp "request_seq" = some (.num 2))
    (h4ok : jget launchResp "success" = some (.bool true)) :
    (runMain d 9 program cwd).1 = .ready
    ∧ (runMain d 9 program cwd).2.2
        = [.sent (mkInitializeReq 1), .received resp1,
           .sent (mkLaunchReq 2 program cwd), .received evInit,
           .sent (mkConfigDoneReq 3), .received cfgResp, .received launchResp]
    ∧ ∃ t1 t2 t3, (runMain d 9 program cwd).2.2
        = t1 ++ .sent (mkConfigDoneReq 3) :: t2 ++ .received launchResp :: t3 := by
  obtain ⟨hr, htr⟩ := runMain_handshake_trace d program cwd resp1 evInit cfgResp
    launchResp h1 h1t h1s h1ok h2 h2t h2e h3 h3t h3s h4t h4s h4ok
  refine ⟨hr, htr,
    [.sent (mkInitializeReq 1), .received resp1,
     .sent (mkLaunchReq 2 program cwd), .received evInit],
    [.received cfgResp], [], ?_⟩
  rw [htr]
  rfl

/-- Witness double for the standalone handshake: successful `initialize`
response; `initialized` event during `launch`; `configurationDone`
response then the withheld `launch` response. -/
def wDouble : AdapterDouble where
  onInitialize := fun _ => [csInitResp]
  onLaunch := fun _ => [csInitializedEv]
  onConfigurationDone := fun _ =>
    [.obj [("type", .str "response"), ("request_seq", .num 3),
           ("command", .str "configurationDone"), ("success", .bool true)],
     .obj [("type", .str "response"), ("request_seq", .num 2),
           ("command", .str "launch"), ("success", .bool true)]]
  onOther := fun _ => []

/-- Witness for C1 at the concrete double `wDouble`. -/
theorem c1_witness :
    (runMain wDouble 9 "fizzbuzz.py" ".").1 = .ready
    ∧ (runMain wDouble 9 "fizzbuzz.py" ".").2.2
        = [.sent (mkInitializeReq 1), .received csInitResp,
           .sent (mkLaunchReq 2 "fizzbuzz.py" "."), .received csInitializedEv,
           .sent (mkConfigDoneReq 3),
           .received (.obj [("type", .str "response"), ("request_seq", .num 3),
             ("command", .str "configurationDone"), ("success", .bool true)]),
           .received (.obj [("type", .str "response"), ("request_seq", .num 2),
             ("command", .str "launch"), ("success", .bool true)])]
    ∧ ∃ t1 t2 t3, (runMain wDouble 9 "fizzbuzz.py" ".").2.2
        = t1 ++ .sent (mkConfigDoneReq 3) :: t2
            ++ .received (.obj [("type", .str "response"), ("request_seq", .num 2),
                 ("command", .str "launch"), ("success", .bool true)]) :: t3 :=
  c1_handshake_ready_and_ordering wDouble "fizzbuzz.py" "." csInitResp
    csInitializedEv
    (.obj [("type", .str "response"), ("request_seq", .num 3),
           ("command", .str "configurationDone"), ("success", .bool true)])
    (.obj [("type", .str "response"), ("request_seq", .num 2),
           ("command", .str "launch"), ("success", .bool true)])
    rfl rfl rfl rfl rfl rfl rfl rfl rfl rfl rfl rfl rfl

end DebuggerMcp

namespace DebuggerMcp

/-- C2: the reader loop processes one frame at a time; an event with a
registered handler (the `initialized` event) has its handler run to
completion inside the loop — the `configurationDone` request it sends,
frame bytes included, is written to the transport — before the loop
reads the next inbound frame: in the wire-action trace the send appears
immediately after the event and before everything of `post`, and the
written-bytes stream is extended before `post` is processed. -/
theorem c2_reader_loop_synchronous_handler (st : SAState) (pre post : List Json)
    (m : Json) (ht : jget m "type" = some (.str "event"))
    (he : jget m "event" = some (.str "initialized")) :
    (saReadLoop st (pre ++ m :: post)).2
      = (saReadLoop st pre).2
        ++ .received m
        :: .sent (mkConfigDoneReq ((saReadLoop st pre).1.seq + 1))
        :: (saReadLoop (saProcessMsg (saReadLoop st pre).1 m).1 post).2
    ∧ (saProcessMsg (saReadLoop st pre).1 m).1.written
        = (saReadLoop st pre).1.written
          ++ sendFrame (mkConfigDoneReq ((saReadLoop st pre).1.seq + 1)) := by
  constructor
  · rw [saReadLoop_append]
    simp only [saReadLoop]
    rw [saProcessMsg_initialized _ _ ht he]
    simp
  · rw [saProcessMsg_initialized _ _ ht he]

/-- Witness for C2 at a concrete state and message. -/
theorem c2_witness :
    (saReadLoop ⟨0, [], [], []⟩ ([] ++ csInitializedEv :: [])).2
      = (saReadLoop ⟨0, [], [], []⟩ []).2
        ++ .received csInitializedEv
        :: .sent (mkConfigDoneReq ((saReadLoop ⟨0, [], [], []⟩ []).1.seq + 1))
        :: (saReadLoop (saProcessMsg (saReadLoop ⟨0, [], [], []⟩ []).1
              csInitializedEv).1 []).2
    ∧ (saProcessMsg (saReadLoop ⟨0, [], [], []⟩ []).1 csInitializedEv).1.written
        = (saReadLoop ⟨0, [], [], []⟩ []).1.written
          ++ sendFrame (mkConfigDoneReq ((saReadLoop ⟨0, [], [], []⟩ []).1.seq + 1)) :=
  c2_reader_loop_synchronous_handler ⟨0, [], [], []⟩ [] [] csInitializedEv rfl rfl

/-- C3 counterexample: a handshake run of `test_correct_sequence.py`
(one of the claim's cited sequencers) against an adapter that answers
`initialize` successfully.  The initialize response arrives with
`success == true`, yet the script then waits for the `initialized`
event and sends `configurationDone` — both strictly between the
initialize response and the `launch` request — refuting the claim that
every handshake run sends `launch` immediately upon the successful
initialize response. -/
theorem c3_counterexample :
    runCorrectSequence csDouble "fizzbuzz.py"
      = [.sent csInitializeReq, .received csInitResp, .received csInitializedEv,
         .sent csConfigDoneReq, .received csCfgDoneResp,
         .sent (csLaunchReq "fizzbuzz.py"), .received csLaunchResp]
    ∧ jget csInitResp "success" = some (.bool true) :=
  ⟨rfl, rfl⟩

/-- C3 amended: the *standalone* sequencer (`main` of
`scripts/test_dap_standalone.py`) sends the `launch` request immediately
upon the successful `initialize` response — the wire trace continues
with the launch send directly after that response, with no intervening
action (in particular no waiting for an `initialized` event and no
`configurationDone`); `test_correct_sequence.py` deliberately does the
opposite. -/
theorem c3_amended_launch_immediate (d : AdapterDouble) (program cwd : String)
    (resp1 : Json)
    (h1 : d.onInitialize (mkInitializeReq 1) = [resp1])
    (h1t : jget resp1 "type" = some (.str "response"))
    (h1s : jget resp1 "request_seq" = some (.num 1))
    (h1ok : jget resp1 "success" = some (.bool true)) :
    ∃ tr, (runMain d 9 program cwd).2.2
        = .sent (mkInitializeReq 1) :: .received resp1
            :: .sent (mkLaunchReq 2 program cwd) :: tr :=
  runMain_launch_immediate d program cwd resp1 h1 h1t h1s h1ok

/-- Witness for C3's amended claim at the concrete double `wDouble`. -/
theorem c3_witness :
    ∃ tr, (runMain wDouble 9 "fizzbuzz.py" ".").2.2
        = .sent (mkInitializeReq 1) :: .received csInitResp
            :: .sent (mkLaunchReq 2 "fizzbuzz.py" ".") :: tr :=
  c3_amended_launch_immediate wDouble "fizzbuzz.py" "." csInitResp rfl rfl rfl rfl

end DebuggerMcp

namespace DebuggerMcp

theorem sendRequest_pending_le (s : DispState)
    (hinv : ∀ p ∈ s.pending, p ≤ s.nextSeq) :
    ∀ p ∈ (sendRequest s).2.pending, p ≤ (sendRequest s).2.nextSeq := by
  intro p hp
  simp only [sendRequest, List.mem_cons] at hp ⊢
  rcases hp with rfl | hp
  · omega
  · have := hinv p hp
    omega

theorem dispStep_pending_le (s : DispState) (e : DEvent)
    (hinv : ∀ p ∈ s.pending, p ≤ s.nextSeq) :
    ∀ p ∈ (dispStep s e).1.pending, p ≤ (dispStep s e).1.nextSeq := by
  intro p hp
  have hsub := dispStep_pending_subset s e p hp
  have hns : (dispStep s e).1.nextSeq = s.nextSeq := by
    cases e with
    | recv m =>
      cases m with
      | resp r =>
        simp only [dispStep]
        split <;> rfl
      | ev n b => rfl
    | timeoutFire sq => rfl
  rw [hns]
  exact hinv p hsub

/-- C7: if no response for `seq` arrives within the deadline, the wait
fails with `Timeout` and the pending entry for `seq` is removed, so a
response for `seq` arriving after the timeout — however many other
occurrences happen in between — is a `ProtocolViolation` and not a
fulfilment.  (Modelled from the spec: the Dispatcher is the production
core, not among the scripts.) -/
theorem c7_timeout_removes_pending (s : DispState) (seq : Nat)
    (hp : seq ∈ s.pending) (r : DResponse) (hr : r.request_seq = seq) :
    (dispStep s (.timeoutFire seq)).2 = .timedOut seq
    ∧ seq ∉ (dispStep s (.timeoutFire seq)).1.pending
    ∧ ∀ mid : List DEvent,
        (dispStep (dispRun (dispStep s (.timeoutFire seq)).1 mid).1
            (.recv (.resp r))).2 = .protocolViolation r := by
  obtain ⟨h1, h2⟩ := timeout_removes_pending s seq
  refine ⟨h1, h2, fun mid => ?_⟩
  have hnp : r.request_seq ∉
      (dispRun (dispStep s (.timeoutFire seq)).1 mid).1.pending := by
    rw [hr]
    exact fun hx => h2 (dispRun_pending_subset _ mid seq hx)
  simp only [dispStep] at hnp ⊢
  rw [if_neg hnp]

/-- Witness for C7 at a concrete state, response and interleaving. -/
theorem c7_witness :
    (dispStep ⟨2, [1, 2]⟩ (.timeoutFire 1)).2 = .timedOut 1
    ∧ (1 : Nat) ∉ (dispStep ⟨2, [1, 2]⟩ (.timeoutFire 1)).1.pending
    ∧ (dispStep (dispRun (dispStep ⟨2, [1, 2]⟩ (.timeoutFire 1)).1
          [.recv (.ev "output" .null)]).1
        (.recv (.resp ⟨1, true, .null⟩))).2 = .protocolViolation ⟨1, true, .null⟩ := by
  obtain ⟨h1, h2, h3⟩ := c7_timeout_removes_pending ⟨2, [1, 2]⟩ 1 (by simp)
    ⟨1, true, .null⟩ rfl
  exact ⟨h1, h2, h3 [.recv (.ev "output" .null)]⟩

/-- C8: a response whose `request_seq` matches a pending request is
returned to that request's waiter — exactly that response, exactly
once: no other fulfilment for that `seq` occurs anywhere else in the
run, a duplicate is a `ProtocolViolation`, and the pending entry is
gone afterwards.  (Modelled from the spec.) -/
theorem c8_response_fulfilled_exactly_once (s : DispState) (seq : Nat)
    (hp : seq ∈ s.pending) (r : DResponse) (hr : r.request_seq = seq)
    (pre post : List DEvent)
    (hpre : ∀ e ∈ pre, (∀ r', e = .recv (.resp r') → r'.request_seq ≠ seq)
              ∧ e ≠ .timeoutFire seq) :
    (dispRun s (pre ++ .recv (.resp r) :: post)).2
      = (dispRun s pre).2 ++ .fulfilled seq r
          :: (dispRun (dispStep (dispRun s pre).1 (.recv (.resp r))).1 post).2
    ∧ (∀ o ∈ (dispRun s pre).2, isFulfilledFor seq o = false)
    ∧ (∀ o ∈ (dispRun (dispStep (dispRun s pre).1 (.recv (.resp r))).1 post).2,
         isFulfilledFor seq o = false)
    ∧ seq ∉ (dispRun s (pre ++ .recv (.resp r) :: post)).1.pending := by
  subst hr
  have hpending : r.request_seq ∈ (dispRun s pre).1.pending :=
    dispRun_pending_preserved s r.request_seq pre hp hpre
  have hstep : dispStep (dispRun s pre).1 (.recv (.resp r))
      = ({ (dispRun s pre).1 with
            pending := (dispRun s pre).1.pending.filter (· ≠ r.request_seq) },
         .fulfilled r.request_seq r) := by
    simp only [dispStep]
    rw [if_pos hpending]
  have hgone : r.request_seq ∉ (dispStep (dispRun s pre).1 (.recv (.resp r))).1.pending := by
    rw [hstep]
    intro hx
    have := (List.mem_filter.mp hx).2
    simp at this
  refine ⟨?_, ?_, ?_, ?_⟩
  · rw [dispRun_append]
    simp only [dispRun]
    rw [hstep]
  · exact dispRun_no_fulfil_of_no_resp s r.request_seq pre
      (fun e he => (hpre e he).1)
  · exact dispRun_no_fulfil_of_not_pending _ r.request_seq hgone post
  · rw [dispRun_append]
    simp only [dispRun]
    exact fun hx => hgone (dispRun_pending_subset _ post _ hx)

end DebuggerMcp

namespace DebuggerMcp

/-- Witness for C8 at a concrete state and run. -/
theorem c8_witness :
    (dispRun ⟨2, [1, 2]⟩
        ([.recv (.ev "output" .null)]
          ++ .recv (.resp ⟨2, true, .null⟩) :: [.recv (.resp ⟨2, true, .null⟩)])).2
      = (dispRun ⟨2, [1, 2]⟩ [.recv (.ev "output" .null)]).2
        ++ .fulfilled 2 ⟨2, true, .null⟩
          :: (dispRun (dispStep (dispRun ⟨2, [1, 2]⟩ [.recv (.ev "output" .null)]).1
                (.recv (.resp ⟨2, true, .null⟩))).1
                [.recv (.resp ⟨2, true, .null⟩)]).2
    ∧ (∀ o ∈ (dispRun ⟨2, [1, 2]⟩ [.recv (.ev "output" .null)]).2,
        isFulfilledFor 2 o = false)
    ∧ (∀ o ∈ (dispRun (dispStep (dispRun ⟨2, [1, 2]⟩ [.recv (.ev "output" .null)]).1
          (.recv (.resp ⟨2, true, .null⟩))).1 [.recv (.resp ⟨2, true, .null⟩)]).2,
        isFulfilledFor 2 o = false)
    ∧ (2 : Nat) ∉ (dispRun ⟨2, [1, 2]⟩
        ([.recv (.ev "output" .null)]
          ++ .recv (.resp ⟨2, true, .null⟩) :: [.recv (.resp ⟨2, true, .null⟩)])).1.pending :=
  c8_response_fulfilled_exactly_once ⟨2, [1, 2]⟩ 2 (by simp) ⟨2, true, .null⟩ rfl
    [.recv (.ev "output" .null)] [.recv (.resp ⟨2, true, .null⟩)]
    (by
      intro e he
      simp only [List.mem_singleton] at he
      subst he
      refine ⟨fun r' h => ?_, by simp⟩
      cases h)

/-- C9: a response whose `request_seq` matches no previously issued
request (every issued `seq` is at most `nextSeq`, and this one is
larger) is reported as a `ProtocolViolation`; the reader loop neither
stops nor changes state — every subsequent message is processed exactly
as it would have been without the stray response.  (Modelled from the
spec.) -/
theorem c9_unknown_request_seq_violation (s : DispState) (r : DResponse)
    (hinv : ∀ p ∈ s.pending, p ≤ s.nextSeq) (hr : s.nextSeq < r.request_seq)
    (post : List DEvent) :
    (dispStep s (.recv (.resp r))).2 = .protocolViolation r
    ∧ (dispStep s (.recv (.resp r))).1 = s
    ∧ (dispRun s (.recv (.resp r) :: post)).2
        = .protocolViolation r :: (dispRun s post).2
    ∧ (dispRun s (.recv (.resp r) :: post)).1 = (dispRun s post).1 := by
  have hni : r.request_seq ∉ s.pending := fun hmem => by
    have := hinv _ hmem
    omega
  have h1 : dispStep s (.recv (.resp r)) = (s, .protocolViolation r) := by
    simp only [dispStep]
    rw [if_neg hni]
  refine ⟨by rw [h1], by rw [h1], ?_, ?_⟩ <;> simp [dispRun, h1]

/-- Witness for C9 at a concrete state and a stray response. -/
theorem c9_witness :
    (dispStep ⟨2, [1, 2]⟩ (.recv (.resp ⟨7, true, .null⟩))).2
      = .protocolViolation ⟨7, true, .null⟩
    ∧ (dispStep ⟨2, [1, 2]⟩ (.recv (.resp ⟨7, true, .null⟩))).1 = ⟨2, [1, 2]⟩
    ∧ (dispRun ⟨2, [1, 2]⟩
        (.recv (.resp ⟨7, true, .null⟩) :: [.recv (.resp ⟨1, true, .null⟩)])).2
        = .protocolViolation ⟨7, true, .null⟩
          :: (dispRun ⟨2, [1, 2]⟩ [.recv (.resp ⟨1, true, .null⟩)]).2
    ∧ (dispRun ⟨2, [1, 2]⟩
        (.recv (.resp ⟨7, true, .null⟩) :: [.recv (.resp ⟨1, true, .null⟩)])).1
        = (dispRun ⟨2, [1, 2]⟩ [.recv (.resp ⟨1, true, .null⟩)]).1 :=
  c9_unknown_request_seq_violation ⟨2, [1, 2]⟩ ⟨7, true, .null⟩
    (by
      intro p hp
      simp only [List.mem_cons, List.mem_singleton] at hp
      rcases hp with rfl | rfl | h
      · decide
      · decide
      · simp at h)
    (by decide) [.recv (.resp ⟨1, true, .null⟩)]

end DebuggerMcp

